import Mathlib

/-!
# Verification of the YDB aiogram FSM storage

A shallow embedding of `aiogram_ydb_storage/storage.py` (class `YDBStorage`):
key derivation, the JSON/pickle payload codec, the query executor, and the
public store operations (`set_state`, `get_state`, `set_data`, `get_data`,
`update_data`), together with proofs of the specified properties.

Python values are modelled by the inductive family `PyVal`/`PyList`/`PyDict`
(JSON-representable values plus an opaque non-serializable object), the YDB
table by an association list from derived keys to rows, and the executor by a
boolean health flag (collapsing pool exhaustion, timeouts and backend faults,
which the source code treats uniformly through `except BaseException`).
-/

set_option maxHeartbeats 1000000

/-! ## Python decimal integer rendering (`str(int)`)

`_key` builds its key string with Python `str` applied to `int` identifiers.
`str(n)` for a nonnegative `int` is the decimal digit string without leading
zeros (and `"0"` for zero); for a negative `int` it is `"-"` followed by the
decimal rendering of the absolute value.  Modelled with an explicit fuel so
that every definition is structurally recursive and kernel-evaluable. -/

/-- The character of a single decimal digit (`0 ≤ d ≤ 9` gives `'0'`..`'9'`). -/
def digitChar (d : Nat) : Char := Char.ofNat (48 + d)

/-- Decimal digits of `n`, most significant first; `[]` for `0`.
The first argument is fuel; `natToDigits` supplies `n` itself, which suffices
because dividing by ten strictly decreases a positive number. -/
def natToDigitsAux : Nat → Nat → List Char
  | 0, _ => []
  | _ + 1, 0 => []
  | fuel + 1, n + 1 => natToDigitsAux fuel ((n + 1) / 10) ++ [digitChar ((n + 1) % 10)]

/-- Decimal digits of `n`, most significant first; `[]` for `0`. -/
def natToDigits (n : Nat) : List Char := natToDigitsAux n n

/-- Python `str` on a nonnegative integer. -/
def pyStrNat (n : Nat) : String := if n = 0 then "0" else String.mk (natToDigits n)

/-- Python `str` on an `int` (decimal, `'-'` sign for negative values). -/
def pyStrInt (i : Int) : String :=
  if i < 0 then "-" ++ pyStrNat i.natAbs else pyStrNat i.natAbs

/-- Reads a digit string back as a number (used only in proofs, to invert
`natToDigits`). -/
def digitsToNat (l : List Char) : Nat :=
  l.foldl (fun a c => a * 10 + (c.toNat - 48)) 0

theorem digitChar_toNat {d : Nat} (h : d < 10) : (digitChar d).toNat = 48 + d := by
  interval_cases d <;> decide

theorem digitChar_ne_colon {d : Nat} (h : d < 10) : digitChar d ≠ ':' := by
  interval_cases d <;> decide

theorem digitChar_ne_minus {d : Nat} (h : d < 10) : digitChar d ≠ '-' := by
  interval_cases d <;> decide

theorem natToDigitsAux_fuel {f₁ f₂ n : Nat} (h₁ : n ≤ f₁) (h₂ : n ≤ f₂) :
    natToDigitsAux f₁ n = natToDigitsAux f₂ n := by
  induction f₁ generalizing f₂ n with
  | zero =>
    have : n = 0 := Nat.le_zero.mp h₁
    subst this
    cases f₂ <;> simp [natToDigitsAux]
  | succ g ih =>
    cases n with
    | zero => cases f₂ <;> simp [natToDigitsAux]
    | succ m =>
      cases f₂ with
      | zero => omega
      | succ h =>
        have hd : (m + 1) / 10 < m + 1 := Nat.div_lt_self (Nat.succ_pos m) (by omega)
        simp only [natToDigitsAux]
        rw [@ih h ((m + 1) / 10) (by omega) (by omega)]

theorem natToDigits_succ (n : Nat) (h : n ≠ 0) :
    natToDigits n = natToDigits (n / 10) ++ [digitChar (n % 10)] := by
  cases n with
  | zero => exact absurd rfl h
  | succ m =>
    show natToDigitsAux (m + 1) (m + 1) = _
    simp only [natToDigitsAux, natToDigits]
    have hd : (m + 1) / 10 < m + 1 := Nat.div_lt_self (Nat.succ_pos m) (by omega)
    rw [natToDigitsAux_fuel (Nat.le_of_lt_succ (by omega)) (Nat.le_refl _)]

theorem natToDigits_foldl (n : Nat) :
    ∀ a, List.foldl (fun a c => a * 10 + (c.toNat - 48)) a (natToDigits n)
      = a * 10 ^ (natToDigits n).length + n := by
  induction n using Nat.strong_induction_on with
  | _ n ih =>
    intro a
    by_cases h : n = 0
    · subst h
      simp [natToDigits, natToDigitsAux]
    · rw [natToDigits_succ n h]
      have hd : n / 10 < n := Nat.div_lt_self (Nat.pos_of_ne_zero h) (by omega)
      rw [List.foldl_append, ih (n / 10) hd a]
      have hm : (n % 10) < 10 := Nat.mod_lt _ (by omega)
      simp only [List.foldl_cons, List.foldl_nil, List.length_append, List.length_cons,
        List.length_nil, digitChar_toNat hm]
      have : 48 + n % 10 - 48 = n % 10 := by omega

      rw [this, Nat.pow_succ]
      have := Nat.div_add_mod n 10
      ring_nf
      omega

theorem digitsToNat_natToDigits (n : Nat) : digitsToNat (natToDigits n) = n := by
  have := natToDigits_foldl n 0
  simpa [digitsToNat] using this

theorem mem_natToDigits {n : Nat} {c : Char} (h : c ∈ natToDigits n) :
    ∃ d, d < 10 ∧ c = digitChar d := by
  induction n using Nat.strong_induction_on with
  | _ n ih =>
    by_cases h0 : n = 0
    · subst h0; simp [natToDigits, natToDigitsAux] at h
    · rw [natToDigits_succ n h0] at h
      rcases List.mem_append.mp h with h | h
      · exact ih (n / 10) (Nat.div_lt_self (Nat.pos_of_ne_zero h0) (by omega)) h
      · rcases List.mem_singleton.mp h with rfl
        exact ⟨n % 10, Nat.mod_lt _ (by omega), rfl⟩

theorem natToDigits_ne_nil {n : Nat} (h : n ≠ 0) : natToDigits n ≠ [] := by
  rw [natToDigits_succ n h]
  simp

theorem pyStrNat_data (n : Nat) :
    (pyStrNat n).data = if n = 0 then ['0'] else natToDigits n := by
  by_cases h : n = 0 <;> simp [pyStrNat, h]

theorem digitsToNat_pyStrNat (n : Nat) : digitsToNat (pyStrNat n).data = n := by
  rw [pyStrNat_data]
  by_cases h : n = 0
  · subst h; simp [digitsToNat]
  · simp [h, digitsToNat_natToDigits]

theorem pyStrNat_inj {m n : Nat} (h : (pyStrNat m).data = (pyStrNat n).data) : m = n := by
  have := digitsToNat_pyStrNat m
  rw [h, digitsToNat_pyStrNat n] at this
  omega

theorem mem_pyStrNat {n : Nat} {c : Char} (h : c ∈ (pyStrNat n).data) :
    ∃ d, d < 10 ∧ c = digitChar d := by
  rw [pyStrNat_data] at h
  by_cases h0 : n = 0
  · simp [h0] at h
    exact ⟨0, by omega, by simp [h, digitChar]⟩
  · simp only [h0, if_false] at h
    exact mem_natToDigits h

theorem pyStrNat_ne_nil (n : Nat) : (pyStrNat n).data ≠ [] := by
  rw [pyStrNat_data]
  by_cases h : n = 0
  · simp [h]
  · simp only [h, if_false]
    exact natToDigits_ne_nil h

theorem pyStrInt_data_nonneg {i : Int} (h : ¬ i < 0) :
    (pyStrInt i).data = (pyStrNat i.natAbs).data := by
  simp [pyStrInt, h]

theorem pyStrInt_data_neg {i : Int} (h : i < 0) :
    (pyStrInt i).data = '-' :: (pyStrNat i.natAbs).data := by
  simp only [pyStrInt, h, if_true]
  rfl

theorem mem_pyStrInt {i : Int} {c : Char} (h : c ∈ (pyStrInt i).data) :
    c = '-' ∨ ∃ d, d < 10 ∧ c = digitChar d := by
  by_cases hn : i < 0
  · rw [pyStrInt_data_neg hn] at h
    rcases List.mem_cons.mp h with h | h
    · exact Or.inl h
    · exact Or.inr (mem_pyStrNat h)
  · rw [pyStrInt_data_nonneg hn] at h
    exact Or.inr (mem_pyStrNat h)

theorem pyStrInt_ne_colon {i : Int} {c : Char} (h : c ∈ (pyStrInt i).data) : c ≠ ':' := by
  rcases mem_pyStrInt h with rfl | ⟨d, hd, rfl⟩
  · decide
  · exact digitChar_ne_colon hd

theorem pyStrInt_inj {i j : Int} (h : (pyStrInt i).data = (pyStrInt j).data) : i = j := by
  have hhead : ∀ {k : Int}, ¬ k < 0 → ∀ {c : Char} {t : List Char},
      (pyStrInt k).data = c :: t → c ≠ '-' := by
    intro k hk c t he
    rw [pyStrInt_data_nonneg hk] at he
    have : c ∈ (pyStrNat k.natAbs).data := by rw [he]; exact List.mem_cons_self _ _
    rcases mem_pyStrNat this with ⟨d, hd, rfl⟩
    exact digitChar_ne_minus hd
  by_cases hi : i < 0 <;> by_cases hj : j < 0
  · rw [pyStrInt_data_neg hi, pyStrInt_data_neg hj] at h
    have := pyStrNat_inj (List.cons.injEq _ _ _ _ ▸ h).2
    omega
  · rw [pyStrInt_data_neg hi] at h
    exact absurd rfl (hhead hj h.symm)
  · rw [pyStrInt_data_neg hj] at h
    exact absurd rfl (hhead hi h)
  · rw [pyStrInt_data_nonneg hi, pyStrInt_data_nonneg hj] at h
    have := pyStrNat_inj h
    omega

/-- Splitting a colon-separated concatenation: if neither left part contains
`':'`, equality of the concatenations forces equality of both parts. -/
theorem splitColon {l₁ l₂ r₁ r₂ : List Char}
    (h₁ : ∀ c ∈ l₁, c ≠ ':') (h₂ : ∀ c ∈ l₂, c ≠ ':')
    (h : l₁ ++ ':' :: r₁ = l₂ ++ ':' :: r₂) : l₁ = l₂ ∧ r₁ = r₂ := by
  induction l₁ generalizing l₂ with
  | nil =>
    cases l₂ with
    | nil => simpa using h
    | cons c₂ t₂ =>
      simp only [List.nil_append, List.cons_append, List.cons.injEq] at h
      exact absurd h.1.symm (h₂ c₂ (List.mem_cons_self _ _))
  | cons c₁ t₁ ih =>
    cases l₂ with
    | nil =>
      simp only [List.nil_append, List.cons_append, List.cons.injEq] at h
      exact absurd h.1 (h₁ c₁ (List.mem_cons_self _ _))
    | cons c₂ t₂ =>
      simp only [List.cons_append, List.cons.injEq] at h
      obtain ⟨rfl, h⟩ := h
      have := ih (fun c hc => h₁ c (List.mem_cons_of_mem _ hc))
        (fun c hc => h₂ c (List.mem_cons_of_mem _ hc)) h
      exact ⟨by rw [this.1], this.2⟩

/-! ## Data model

The mutual inductive family `PyVal`/`PyList`/`PyDict` models the Python values
the storage handles: JSON-representable data (`None`, `bool`, `int`, `str`,
`list`, `dict` with string keys) plus `obj`, an opaque object that the JSON
codec cannot serialize (`json.dumps` raises `TypeError` on it).  Numbers are
modelled as integers; `float` payloads are outside the embedding. -/

mutual

inductive PyVal where
  | none : PyVal
  | bool : Bool → PyVal
  | int : Int → PyVal
  | str : String → PyVal
  | list : PyList → PyVal
  | dict : PyDict → PyVal
  | obj : Nat → PyVal

inductive PyList where
  | nil : PyList
  | cons : PyVal → PyList → PyList

inductive PyDict where
  | nil : PyDict
  | cons : String → PyVal → PyDict → PyDict

end

/-- Python truthiness (`bool(v)`): `None`, `False`, `0`, `""` and empty
containers are falsy; everything else is truthy. -/
def pyTruthy : PyVal → Bool
  | .none => false
  | .bool b => b
  | .int n => decide (n ≠ 0)
  | .str s => decide (s ≠ "")
  | .list .nil => false
  | .list (.cons _ _) => true
  | .dict .nil => false
  | .dict (.cons _ _ _) => true
  | .obj _ => true

/-- Model of `d[k] = v` on a Python dict: replaces the value in place if the key is
present, otherwise appends the pair (Python dicts preserve insertion order). -/
def dictSet : PyDict → String → PyVal → PyDict
  | .nil, k, v => .cons k v .nil
  | .cons k' v' rest, k, v =>
      if k' = k then .cons k' v rest else .cons k' v' (dictSet rest k v)

/-- Python `d.update(p)`: sets every key of `p` in `d`, in `p`'s order. -/
def dictUpdate : PyDict → PyDict → PyDict
  | d, .nil => d
  | d, .cons k v rest => dictUpdate (dictSet d k v) rest

/-- The serialization modes of the codec (`self.serializing_method` after the
constructor's normalization; any string other than `"pickle"`/`"json"` is
replaced by `"json"`). -/
inductive Mode where
  | json : Mode
  | pickle : Mode
deriving DecidableEq

/-- A value of the `data` column: the codec either stores JSON text or a pickle
blob.  The pickle encoding of the external `pickle` library is opaque and
injective with `pickle.loads` as inverse, so it is modelled as carrying the
encoded value itself. -/
inductive Blob where
  | json : String → Blob
  | pickled : PyVal → Blob

/-- Python falsiness of a column value (`if obj else None` in `_dsr`): the
column is falsy when it is NULL or the empty string.  (`pickle.dumps` never
returns an empty blob, so stored pickle blobs are always truthy.) -/
def blobFalsy : Option Blob → Bool
  | Option.none => true
  | some (.json s) => decide (s = "")
  | some (.pickled _) => false

/-- One row of the `fsm_storage` table: the `state` and `data` columns (both
nullable in YDB; the `key` column is the association-list key). -/
structure Record where
  state : Option String := Option.none
  data : Option Blob := Option.none

/-- The table contents: rows keyed by the derived string key (unique). -/
def DB := List (String × Record)

/-- Lookup of the row with the given key (`SELECT ... WHERE key = $k`). -/
def dbLookup : DB → String → Option Record
  | [], _ => Option.none
  | (k', r) :: rest, k => if k' = k then some r else dbLookup rest k

/-- Model of `UPSERT INTO t (key, state) VALUES ($k, $s)`: writes only the `state`
column; a fresh row gets a NULL `data` column. -/
def dbSetState : DB → String → String → DB
  | [], k, s => [(k, { state := some s, data := Option.none })]
  | (k', r) :: rest, k, s =>
      if k' = k then (k', { r with state := some s }) :: rest
      else (k', r) :: dbSetState rest k s

/-- Model of `UPSERT INTO t (key, data) VALUES ($k, $d)`: writes only the `data`
column; a fresh row gets a NULL `state` column. -/
def dbSetData : DB → String → Blob → DB
  | [], k, b => [(k, { state := Option.none, data := some b })]
  | (k', r) :: rest, k, b =>
      if k' = k then (k', { r with data := some b }) :: rest
      else (k', r) :: dbSetData rest k b

/-- The three identifiers of aiogram's `StorageKey` that `_key` reads
(`bot_id`, `chat_id`, `user_id`; Telegram chat identifiers may be negative). -/
structure StorageKey where
  bot_id : Int
  chat_id : Int
  user_id : Int

/-- The storage facade's configuration, fixed at construction. -/
structure YDBStorage where
  serializing_method : Mode
  table_name : String

/-! ## JSON serialization (`json.dumps`)

Models CPython's `json.dumps` with its defaults: separators `", "` and `": "`,
`ensure_ascii=True` (characters outside printable ASCII become `\uXXXX`
escapes, astral characters a surrogate pair), the standard short escapes, and
`str` rendering of integers.  Serialization returns `Option.none` exactly when
the value contains a non-serializable object, modelling the `TypeError` that
`_ser` catches. -/

/-- Lowercase hexadecimal digit character, for `d < 16`. -/
def hexDigit (d : Nat) : Char :=
  if d < 10 then Char.ofNat (48 + d) else Char.ofNat (87 + d)

/-- A `\uXXXX` escape (backslash, `u`, four lowercase hex digits). -/
def uEsc (n : Nat) : List Char :=
  ['\\', 'u', hexDigit (n / 4096 % 16), hexDigit (n / 256 % 16),
   hexDigit (n / 16 % 16), hexDigit (n % 16)]

/-- The escape sequence `json.dumps` emits for one character: short escapes
for `"`/`\`/control characters with shorthands, printable ASCII verbatim,
`\uXXXX` otherwise, with astral characters as a UTF-16 surrogate pair. -/
def escChar (c : Char) : List Char :=
  if c = '"' then ['\\', '"']
  else if c = '\\' then ['\\', '\\']
  else if c = Char.ofNat 8 then ['\\', 'b']
  else if c = Char.ofNat 9 then ['\\', 't']
  else if c = Char.ofNat 10 then ['\\', 'n']
  else if c = Char.ofNat 12 then ['\\', 'f']
  else if c = Char.ofNat 13 then ['\\', 'r']
  else if 32 ≤ c.toNat ∧ c.toNat ≤ 126 then [c]
  else if c.toNat < 65536 then uEsc c.toNat
  else uEsc (55296 + (c.toNat - 65536) / 1024) ++ uEsc (56320 + (c.toNat - 65536) % 1024)

/-- Escapes every character of a string's contents. -/
def escChars : List Char → List Char
  | [] => []
  | c :: cs => escChar c ++ escChars cs

/-- A JSON string literal: quote, escaped contents, quote. -/
def renderStr (s : String) : List Char := '"' :: escChars s.data ++ ['"']

mutual

/-- Serialization (`json.dumps`) of one value (character list), `Option.none` on a
non-serializable object anywhere inside. -/
def dumpVal : PyVal → Option (List Char)
  | .none => some ['n', 'u', 'l', 'l']
  | .bool true => some ['t', 'r', 'u', 'e']
  | .bool false => some ['f', 'a', 'l', 's', 'e']
  | .int n => some (pyStrInt n).data
  | .str s => some (renderStr s)
  | .list xs =>
      match dumpElems xs with
      | some inner => some ('[' :: inner ++ [']'])
      | Option.none => Option.none
  | .dict kvs =>
      match dumpMembers kvs with
      | some inner => some ('{' :: inner ++ ['}'])
      | Option.none => Option.none
  | .obj _ => Option.none

/-- The comma-joined element list of an array (no brackets). -/
def dumpElems : PyList → Option (List Char)
  | .nil => some []
  | .cons x xs =>
      match dumpVal x, dumpElemsRest xs with
      | some a, some b => some (a ++ b)
      | _, _ => Option.none

/-- The remaining elements of an array, each preceded by `", "`. -/
def dumpElemsRest : PyList → Option (List Char)
  | .nil => some []
  | .cons x xs =>
      match dumpVal x, dumpElemsRest xs with
      | some a, some b => some (',' :: ' ' :: a ++ b)
      | _, _ => Option.none

/-- The comma-joined member list of an object (no braces); each member is
`"key": value`. -/
def dumpMembers : PyDict → Option (List Char)
  | .nil => some []
  | .cons k v kvs =>
      match dumpVal v, dumpMembersRest kvs with
      | some a, some b => some (renderStr k ++ ':' :: ' ' :: a ++ b)
      | _, _ => Option.none

/-- The remaining members of an object, each preceded by `", "`. -/
def dumpMembersRest : PyDict → Option (List Char)
  | .nil => some []
  | .cons k v kvs =>
      match dumpVal v, dumpMembersRest kvs with
      | some a, some b => some (',' :: ' ' :: renderStr k ++ ':' :: ' ' :: a ++ b)
      | _, _ => Option.none

end

/-- Serialization as a string (`json.dumps`). -/
def jsonDumps (v : PyVal) : Option String := (dumpVal v).map String.mk

/-! ## JSON parsing (`json.loads`)

A recursive-descent parser over character lists.  String contents, numbers and
whitespace are consumed by structural recursion on the input; the nesting of
arrays and objects is bounded by an explicit fuel (`jsonLoads` supplies a fuel
that provably suffices for any output of `jsonDumps`).  As in CPython's
decoder, `\uXXXX` escapes are decoded with surrogate-pair recombination; a
lone surrogate (which Lean's `Char` cannot represent) is rejected instead of
kept, and the number grammar accepts only optionally-signed integers, the
only numbers the embedding serializes. -/

/-- JSON whitespace (space, tab, newline, carriage return). -/
def isWsChar (c : Char) : Bool :=
  c.toNat = 32 || c.toNat = 9 || c.toNat = 10 || c.toNat = 13

/-- ASCII decimal digit. -/
def isDigitCh (c : Char) : Bool := 48 ≤ c.toNat && c.toNat ≤ 57

/-- Drops leading JSON whitespace. -/
def skipWs : List Char → List Char
  | [] => []
  | c :: cs => if isWsChar c then skipWs cs else c :: cs

/-- The value of one hexadecimal digit character (either case). -/
def hexVal? (c : Char) : Option Nat :=
  if 48 ≤ c.toNat ∧ c.toNat ≤ 57 then some (c.toNat - 48)
  else if 97 ≤ c.toNat ∧ c.toNat ≤ 102 then some (c.toNat - 87)
  else if 65 ≤ c.toNat ∧ c.toNat ≤ 70 then some (c.toNat - 55)
  else Option.none

/-- The value of a four-hex-digit group. -/
def hex4 (a b c d : Char) : Option Nat :=
  match hexVal? a, hexVal? b, hexVal? c, hexVal? d with
  | some x, some y, some z, some w => some (((x * 16 + y) * 16 + z) * 16 + w)
  | _, _, _, _ => Option.none

/-- The character denoted by a short escape `\e`. -/
def unescChar (e : Char) : Option Char :=
  if e = '"' then some '"'
  else if e = '\\' then some '\\'
  else if e = '/' then some '/'
  else if e = 'b' then some (Char.ofNat 8)
  else if e = 'f' then some (Char.ofNat 12)
  else if e = 'n' then some (Char.ofNat 10)
  else if e = 'r' then some (Char.ofNat 13)
  else if e = 't' then some (Char.ofNat 9)
  else Option.none

/-- Decodes one escape sequence given the input after the backslash: the
denoted character and the remaining input.  Surrogate `\uXXXX` pairs are
recombined as in CPython's decoder; a lone surrogate (not representable as a
Lean `Char`) is rejected. -/
def unescFront : List Char → Option (Char × List Char)
  | [] => Option.none
  | e :: rest =>
    if e = 'u' then
      match rest with
      | a :: b :: c :: d :: rest2 =>
        match hex4 a b c d with
        | some n =>
          if 55296 ≤ n ∧ n < 56320 then
            match rest2 with
            | b2 :: u2 :: a2 :: b3 :: c2 :: d2 :: rest3 =>
              if b2 = '\\' ∧ u2 = 'u' then
                match hex4 a2 b3 c2 d2 with
                | some m =>
                  if 56320 ≤ m ∧ m < 57344 then
                    some (Char.ofNat (65536 + (n - 55296) * 1024 + (m - 56320)), rest3)
                  else Option.none
                | Option.none => Option.none
              else Option.none
            | _ => Option.none
          else if 56320 ≤ n ∧ n < 57344 then Option.none
          else some (Char.ofNat n, rest2)
        | Option.none => Option.none
      | _ => Option.none
    else
      match unescChar e with
      | some ch => some (ch, rest)
      | Option.none => Option.none

/-- Parses JSON string contents after the opening quote, returning the decoded
characters and the input past the closing quote.  Unescaped control characters
are rejected (CPython's strict mode).  The fuel bounds the number of decoded
characters; one more than the input length always suffices. -/
def parseStrF : Nat → List Char → Option (List Char × List Char)
  | 0, _ => Option.none
  | _ + 1, [] => Option.none
  | fuel + 1, c :: rest =>
    if c = '"' then some ([], rest)
    else if c = '\\' then
      match unescFront rest with
      | some (ch, rem) =>
        match parseStrF fuel rem with
        | some (s, r) => some (ch :: s, r)
        | Option.none => Option.none
      | Option.none => Option.none
    else if c.toNat < 32 then Option.none
    else
      match parseStrF fuel rest with
      | some (s, r) => some (c :: s, r)
      | Option.none => Option.none

/-- Takes the longest digit run from the front of the input. -/
def takeDigits : List Char → List Char × List Char
  | [] => ([], [])
  | c :: rest =>
    if isDigitCh c then
      match takeDigits rest with
      | (ds, r) => (c :: ds, r)
    else ([], c :: rest)

/-- Parses an optionally-signed integer literal. -/
def parseNum : List Char → Option (Int × List Char)
  | [] => Option.none
  | c :: rest =>
    if c = '-' then
      match takeDigits rest with
      | ([], _) => Option.none
      | (ds, r) => some (-(digitsToNat ds : Int), r)
    else
      match takeDigits (c :: rest) with
      | ([], _) => Option.none
      | (ds, r) => some ((digitsToNat ds : Int), r)

mutual

/-- Parses one JSON value (after optional leading whitespace), returning the
value and the remaining input.  The fuel bounds the recursion through nested
values and element chains. -/
def parseVal : Nat → List Char → Option (PyVal × List Char)
  | 0, _ => Option.none
  | fuel + 1, l =>
    match skipWs l with
    | [] => Option.none
    | c :: rest =>
      if c = 'n' then
        match rest with
        | 'u' :: 'l' :: 'l' :: r => some (.none, r)
        | _ => Option.none
      else if c = 't' then
        match rest with
        | 'r' :: 'u' :: 'e' :: r => some (.bool true, r)
        | _ => Option.none
      else if c = 'f' then
        match rest with
        | 'a' :: 'l' :: 's' :: 'e' :: r => some (.bool false, r)
        | _ => Option.none
      else if c = '"' then
        match parseStrF rest.length rest with
        | some (s, r) => some (.str (String.mk s), r)
        | Option.none => Option.none
      else if c = '[' then
        match skipWs rest with
        | ']' :: r => some (.list .nil, r)
        | l2 =>
          match parseVal fuel l2 with
          | some (v, r) =>
            match parseListRest fuel r with
            | some (vs, r2) => some (.list (.cons v vs), r2)
            | Option.none => Option.none
          | Option.none => Option.none
      else if c = '{' then
        match skipWs rest with
        | '}' :: r => some (.dict .nil, r)
        | l2 =>
          match parseMember fuel l2 with
          | some (k, v, r) =>
            match parseDictRest fuel r with
            | some (ms, r2) => some (.dict (.cons k v ms), r2)
            | Option.none => Option.none
          | Option.none => Option.none
      else
        match parseNum (c :: rest) with
        | some (n, r) => some (.int n, r)
        | Option.none => Option.none

/-- Parses the rest of an array after one element: either `]` or `, elem ...`. -/
def parseListRest : Nat → List Char → Option (PyList × List Char)
  | 0, _ => Option.none
  | fuel + 1, l =>
    match skipWs l with
    | ']' :: r => some (.nil, r)
    | ',' :: r =>
      match parseVal fuel r with
      | some (v, r2) =>
        match parseListRest fuel r2 with
        | some (vs, r3) => some (.cons v vs, r3)
        | Option.none => Option.none
      | Option.none => Option.none
    | _ => Option.none

/-- Parses one `"key": value` object member. -/
def parseMember : Nat → List Char → Option (String × PyVal × List Char)
  | 0, _ => Option.none
  | fuel + 1, l =>
    match l with
    | '"' :: lr =>
      match parseStrF lr.length lr with
      | some (kcs, r1) =>
        match skipWs r1 with
        | ':' :: r2 =>
          match parseVal fuel r2 with
          | some (v, r3) => some (String.mk kcs, v, r3)
          | Option.none => Option.none
        | _ => Option.none
      | Option.none => Option.none
    | _ => Option.none

/-- Parses the rest of an object after one member: either `}` or `, member ...`. -/
def parseDictRest : Nat → List Char → Option (PyDict × List Char)
  | 0, _ => Option.none
  | fuel + 1, l =>
    match skipWs l with
    | '}' :: r => some (.nil, r)
    | ',' :: r =>
      match parseMember fuel (skipWs r) with
      | some (k, v, r2) =>
        match parseDictRest fuel r2 with
        | some (ms, r3) => some (.cons k v ms, r3)
        | Option.none => Option.none
      | Option.none => Option.none
    | _ => Option.none

end

/-- Parsing (`json.loads`): parses one value and requires only whitespace afterwards
(otherwise CPython raises "Extra data"); failures are `Option.none`. -/
def jsonLoads (s : String) : Option PyVal :=
  match parseVal (2 * s.data.length + 2) s.data with
  | some (v, rest) =>
      match skipWs rest with
      | [] => some v
      | _ => Option.none
  | Option.none => Option.none

/-! ## Round trip of the string escaping -/

theorem char_ne_of_toNat_ne {c d : Char} (h : c.toNat ≠ d.toNat) : c ≠ d := by
  intro he; exact h (he ▸ rfl)

/-- The scalar-value bounds carried by every `Char` (no surrogates). -/
theorem char_toNat_valid (c : Char) :
    c.toNat < 55296 ∨ (57343 < c.toNat ∧ c.toNat < 1114112) := by
  have h := c.valid
  unfold UInt32.isValidChar Nat.isValidChar at h
  exact h

theorem charOfNat_toNat (c : Char) : Char.ofNat c.toNat = c := Char.ofNat_toNat c

theorem skipWs_cons_not_ws {c : Char} {l : List Char} (h : isWsChar c = false) :
    skipWs (c :: l) = c :: l := by
  simp [skipWs, h]

theorem hexVal?_hexDigit {d : Nat} (h : d < 16) : hexVal? (hexDigit d) = some d := by
  interval_cases d <;> decide

theorem hex4_digits {n : Nat} (h : n < 65536) :
    hex4 (hexDigit (n / 4096 % 16)) (hexDigit (n / 256 % 16))
      (hexDigit (n / 16 % 16)) (hexDigit (n % 16)) = some n := by
  have e : (((n / 4096 % 16) * 16 + n / 256 % 16) * 16 + n / 16 % 16) * 16 + n % 16 = n := by
    omega
  rw [hex4, hexVal?_hexDigit (Nat.mod_lt _ (by omega)), hexVal?_hexDigit (Nat.mod_lt _ (by omega)),
    hexVal?_hexDigit (Nat.mod_lt _ (by omega)), hexVal?_hexDigit (Nat.mod_lt _ (by omega))]
  show some _ = some n
  rw [e]

theorem parseStrF_quote (f : Nat) (t : List Char) :
    parseStrF (f + 1) ('"' :: t) = some ([], t) := by
  rw [parseStrF]; rfl

theorem parseStrF_esc {t : List Char} {ch : Char} {rem s r : List Char} (f : Nat)
    (h : unescFront t = some (ch, rem)) (h2 : parseStrF f rem = some (s, r)) :
    parseStrF (f + 1) ('\\' :: t) = some (ch :: s, r) := by
  rw [parseStrF]
  rw [if_neg (by decide : ('\\' : Char) ≠ '"'), if_pos rfl, h]
  show (match parseStrF f rem with
    | some (s, r) => some (ch :: s, r)
    | Option.none => Option.none) = _
  rw [h2]

theorem parseStrF_plain {c : Char} {t s r : List Char} (f : Nat)
    (h1 : c ≠ '"') (h2 : c ≠ '\\') (h3 : ¬ c.toNat < 32)
    (h4 : parseStrF f t = some (s, r)) :
    parseStrF (f + 1) (c :: t) = some (c :: s, r) := by
  rw [parseStrF]
  rw [if_neg h1, if_neg h2, if_neg h3, h4]

theorem unescFront_u4 {a b c d : Char} {n : Nat} (t : List Char)
    (hx : hex4 a b c d = some n)
    (hs : ¬ (55296 ≤ n ∧ n < 56320)) (hs2 : ¬ (56320 ≤ n ∧ n < 57344)) :
    unescFront ('u' :: a :: b :: c :: d :: t) = some (Char.ofNat n, t) := by
  simp only [unescFront.eq_def]
  rw [if_pos trivial]
  simp only [hx]
  rw [if_neg hs, if_neg hs2]

theorem unescFront_uu {a b c d a2 b2 c2 d2 : Char} {hi lo : Nat} (t : List Char)
    (hx : hex4 a b c d = some hi) (hhi : 55296 ≤ hi ∧ hi < 56320)
    (hx2 : hex4 a2 b2 c2 d2 = some lo) (hlo : 56320 ≤ lo ∧ lo < 57344) :
    unescFront ('u' :: a :: b :: c :: d :: '\\' :: 'u' :: a2 :: b2 :: c2 :: d2 :: t)
      = some (Char.ofNat (65536 + (hi - 55296) * 1024 + (lo - 56320)), t) := by
  simp only [unescFront.eq_def]
  rw [if_pos trivial]
  simp only [hx]
  rw [if_pos hhi]
  rw [if_pos (by simp)]
  simp only [hx2]
  rw [if_pos hlo]

theorem parseStrF_escChars (l : List Char) :
    ∀ fuel rest, l.length + 1 ≤ fuel →
      parseStrF fuel (escChars l ++ '"' :: rest) = some (l, rest) := by
  induction l with
  | nil =>
    intro fuel rest hf
    match fuel, hf with
    | f + 1, _ => exact parseStrF_quote f rest
  | cons c l ih =>
    intro fuel rest hf
    cases fuel with
    | zero => simp at hf
    | succ f =>
    have hfl : l.length + 1 ≤ f := by
      simp only [List.length_cons] at hf
      omega
    have ihr := ih f rest hfl
    show parseStrF (f + 1) (escChar c ++ escChars l ++ '"' :: rest) = _
    rw [escChar]
    by_cases h1 : c = '"'
    · subst h1; simp only [if_pos rfl, List.cons_append, List.nil_append]
      exact parseStrF_esc f (by rfl) ihr
    rw [if_neg h1]
    by_cases h2 : c = '\\'
    · subst h2; simp only [if_pos rfl, List.cons_append, List.nil_append]
      exact parseStrF_esc f (by rfl) ihr
    rw [if_neg h2]
    by_cases h3 : c = Char.ofNat 8
    · subst h3; simp only [if_pos rfl, List.cons_append, List.nil_append]
      exact parseStrF_esc f (by rfl) ihr
    rw [if_neg h3]
    by_cases h4 : c = Char.ofNat 9
    · subst h4; simp only [if_pos rfl, List.cons_append, List.nil_append]
      exact parseStrF_esc f (by rfl) ihr
    rw [if_neg h4]
    by_cases h5 : c = Char.ofNat 10
    · subst h5; simp only [if_pos rfl, List.cons_append, List.nil_append]
      exact parseStrF_esc f (by rfl) ihr
    rw [if_neg h5]
    by_cases h6 : c = Char.ofNat 12
    · subst h6; simp only [if_pos rfl, List.cons_append, List.nil_append]
      exact parseStrF_esc f (by rfl) ihr
    rw [if_neg h6]
    by_cases h7 : c = Char.ofNat 13
    · subst h7; simp only [if_pos rfl, List.cons_append, List.nil_append]
      exact parseStrF_esc f (by rfl) ihr
    rw [if_neg h7]
    by_cases h8 : 32 ≤ c.toNat ∧ c.toNat ≤ 126
    · rw [if_pos h8]
      simp only [List.cons_append, List.nil_append]
      exact parseStrF_plain f h1 h2 (by omega) ihr
    rw [if_neg h8]
    have hval := char_toNat_valid c
    by_cases h9 : c.toNat < 65536
    · rw [if_pos h9]
      have hsur : ¬ (55296 ≤ c.toNat ∧ c.toNat < 56320) := by omega
      have hsur2 : ¬ (56320 ≤ c.toNat ∧ c.toNat < 57344) := by omega
      show parseStrF (f + 1)
        ('\\' :: 'u' :: _ :: _ :: _ :: _ :: (escChars l ++ '"' :: rest)) = _
      have := parseStrF_esc f
        (unescFront_u4 (escChars l ++ '"' :: rest) (hex4_digits h9) hsur hsur2) ihr
      rw [this, charOfNat_toNat]
    · rw [if_neg h9]
      have hge : 65536 ≤ c.toNat := by omega
      have hlt : c.toNat < 1114112 := by omega
      show parseStrF (f + 1)
        ('\\' :: 'u' :: _ :: _ :: _ :: _ :: ('\\' :: 'u' :: _ :: _ :: _ :: _ ::
          (escChars l ++ '"' :: rest))) = _
      have hhi : 55296 + (c.toNat - 65536) / 1024 < 56320 := by omega
      have hlo : 56320 + (c.toNat - 65536) % 1024 < 57344 := by
        have := Nat.mod_lt (c.toNat - 65536) (show 0 < 1024 by omega)
        omega
      have harith : 65536 + (55296 + (c.toNat - 65536) / 1024 - 55296) * 1024 +
          (56320 + (c.toNat - 65536) % 1024 - 56320) = c.toNat := by
        have := Nat.div_add_mod (c.toNat - 65536) 1024
        omega
      have := parseStrF_esc f
        (unescFront_uu (escChars l ++ '"' :: rest)
          (hex4_digits (show 55296 + (c.toNat - 65536) / 1024 < 65536 by omega))
          ⟨by omega, hhi⟩
          (hex4_digits (show 56320 + (c.toNat - 65536) % 1024 < 65536 by omega))
          ⟨by omega, hlo⟩) ihr
      rw [this, harith, charOfNat_toNat]

/-! ## Round trip of integer literals -/

theorem isDigitCh_iff {c : Char} : isDigitCh c = true ↔ 48 ≤ c.toNat ∧ c.toNat ≤ 57 := by
  simp [isDigitCh, Bool.and_eq_true, decide_eq_true_eq]

theorem isDigitCh_digitChar {d : Nat} (h : d < 10) : isDigitCh (digitChar d) = true := by
  rw [isDigitCh_iff, digitChar_toNat h]
  omega

/-- Returns `true` when the input does not begin with a digit (so a preceding greedy
digit run cannot absorb it). -/
def headDigitFree : List Char → Bool
  | [] => true
  | c :: _ => !isDigitCh c

theorem takeDigits_run {ds : List Char} (hds : ∀ c ∈ ds, isDigitCh c = true) :
    ∀ rest, headDigitFree rest = true → takeDigits (ds ++ rest) = (ds, rest) := by
  induction ds with
  | nil =>
    intro rest hr
    cases rest with
    | nil => rfl
    | cons c t =>
      simp only [headDigitFree, Bool.not_eq_true'] at hr
      simp [takeDigits, hr]
  | cons c ds ih =>
    intro rest hr
    have hc : isDigitCh c = true := hds c (List.mem_cons_self _ _)
    simp only [List.cons_append, takeDigits, hc, if_true]
    rw [show ds.append rest = ds ++ rest from rfl]
    rw [ih (fun x hx => hds x (List.mem_cons_of_mem _ hx)) rest hr]

theorem pyStrNat_digits (n : Nat) : ∀ c ∈ (pyStrNat n).data, isDigitCh c = true := by
  intro c hc
  rcases mem_pyStrNat hc with ⟨d, hd, rfl⟩
  exact isDigitCh_digitChar hd

theorem pyStrNat_head (n : Nat) :
    ∃ c t, (pyStrNat n).data = c :: t ∧ isDigitCh c = true := by
  rcases he : (pyStrNat n).data with _ | ⟨c, t⟩
  · exact absurd he (pyStrNat_ne_nil n)
  · exact ⟨c, t, rfl, pyStrNat_digits n c (he ▸ List.mem_cons_self _ _)⟩

theorem parseNum_pyStrInt (i : Int) :
    ∀ rest, headDigitFree rest = true →
      parseNum ((pyStrInt i).data ++ rest) = some (i, rest) := by
  intro rest hr
  rcases pyStrNat_head i.natAbs with ⟨c, t, he, hc⟩
  have htake : takeDigits (c :: (t ++ rest)) = (c :: t, rest) := by
    rw [← List.cons_append, ← he, takeDigits_run (pyStrNat_digits _) rest hr, he]
  by_cases hn : i < 0
  · rw [pyStrInt_data_neg hn, he]
    simp only [List.cons_append, parseNum, if_pos rfl]
    rw [htake]
    show some (-(digitsToNat (c :: t) : Int), rest) = some (i, rest)
    rw [← he, digitsToNat_pyStrNat]
    have hi : -((i.natAbs : Nat) : Int) = i := by omega
    rw [hi]
  · rw [pyStrInt_data_nonneg hn, he]
    have hcm : c ≠ '-' := by
      rcases mem_pyStrNat (he ▸ List.mem_cons_self c t) with ⟨d, hd, rfl⟩
      exact digitChar_ne_minus hd
    simp only [List.cons_append, parseNum, if_neg hcm]
    rw [htake]
    show some ((digitsToNat (c :: t) : Int), rest) = some (i, rest)
    rw [← he, digitsToNat_pyStrNat]
    have hi : ((i.natAbs : Nat) : Int) = i := by omega
    rw [hi]

/-! ## Round trip of whole values

`fuelNeeded` over-approximates the fuel the parser consumes on the output of
`jsonDumps`; `fuelNeeded_le` bounds it by the output's length, which justifies
the fuel `jsonLoads` supplies. -/

mutual

def fuelNeeded : PyVal → Nat
  | .list xs => 1 + fuelList xs
  | .dict kvs => 1 + fuelDict kvs
  | _ => 1

def fuelList : PyList → Nat
  | .nil => 0
  | .cons x xs => fuelNeeded x + 2 + fuelList xs

def fuelDict : PyDict → Nat
  | .nil => 0
  | .cons _ v kvs => fuelNeeded v + 3 + fuelDict kvs

end

theorem skipWs_cons_ws {c : Char} {l : List Char} (h : isWsChar c = true) :
    skipWs (c :: l) = skipWs l := by
  rw [skipWs, if_pos h]

theorem parseVal_space (f : Nat) (l : List Char) :
    parseVal (f + 1) (' ' :: l) = parseVal (f + 1) l := rfl

theorem parseVal_null (f : Nat) (r : List Char) :
    parseVal (f + 1) ('n' :: 'u' :: 'l' :: 'l' :: r) = some (.none, r) := by
  rw [parseVal.eq_def]; rfl

theorem parseVal_true (f : Nat) (r : List Char) :
    parseVal (f + 1) ('t' :: 'r' :: 'u' :: 'e' :: r) = some (.bool true, r) := by
  rw [parseVal.eq_def]; rfl

theorem parseVal_false (f : Nat) (r : List Char) :
    parseVal (f + 1) ('f' :: 'a' :: 'l' :: 's' :: 'e' :: r) = some (.bool false, r) := by
  rw [parseVal.eq_def]; rfl

theorem parseVal_quote (f : Nat) (r : List Char) :
    parseVal (f + 1) ('"' :: r)
      = match parseStrF r.length r with
        | some (s, r2) => some (.str (String.mk s), r2)
        | Option.none => Option.none := by
  rw [parseVal.eq_def]; rfl

theorem parseVal_lbracket (f : Nat) (r : List Char) :
    parseVal (f + 1) ('[' :: r)
      = match skipWs r with
        | ']' :: r2 => some (.list .nil, r2)
        | l2 =>
          match parseVal f l2 with
          | some (v, r2) =>
            match parseListRest f r2 with
            | some (vs, r3) => some (.list (.cons v vs), r3)
            | Option.none => Option.none
          | Option.none => Option.none := by
  rw [parseVal.eq_def]; rfl

theorem parseVal_lbrace (f : Nat) (r : List Char) :
    parseVal (f + 1) ('{' :: r)
      = match skipWs r with
        | '}' :: r2 => some (.dict .nil, r2)
        | l2 =>
          match parseMember f l2 with
          | some (k, v, r2) =>
            match parseDictRest f r2 with
            | some (ms, r3) => some (.dict (.cons k v ms), r3)
            | Option.none => Option.none
          | Option.none => Option.none := by
  rw [parseVal.eq_def]; rfl

theorem parseVal_num {c : Char} (f : Nat) (r : List Char)
    (h : c = '-' ∨ ∃ d, d < 10 ∧ c = digitChar d) :
    parseVal (f + 1) (c :: r)
      = match parseNum (c :: r) with
        | some (n, r2) => some (.int n, r2)
        | Option.none => Option.none := by
  rcases h with rfl | ⟨d, hd, rfl⟩
  · rw [parseVal.eq_def]; rfl
  · interval_cases d <;> (rw [parseVal.eq_def]; rfl)

theorem parseListRest_space (f : Nat) (l : List Char) :
    parseListRest (f + 1) (' ' :: l) = parseListRest (f + 1) l := rfl

theorem parseListRest_rbracket (f : Nat) (r : List Char) :
    parseListRest (f + 1) (']' :: r) = some (.nil, r) := by
  rw [parseListRest.eq_def]; rfl

theorem parseListRest_comma (f : Nat) (r : List Char) :
    parseListRest (f + 1) (',' :: r)
      = match parseVal f r with
        | some (v, r2) =>
          match parseListRest f r2 with
          | some (vs, r3) => some (.cons v vs, r3)
          | Option.none => Option.none
        | Option.none => Option.none := by
  rw [parseListRest.eq_def]; rfl

theorem parseMember_quote (f : Nat) (lr : List Char) :
    parseMember (f + 1) ('"' :: lr)
      = match parseStrF lr.length lr with
        | some (kcs, r1) =>
          match skipWs r1 with
          | ':' :: r2 =>
            match parseVal f r2 with
            | some (v, r3) => some (String.mk kcs, v, r3)
            | Option.none => Option.none
          | _ => Option.none
        | Option.none => Option.none := by
  rw [parseMember.eq_def]; rfl

theorem parseDictRest_rbrace (f : Nat) (r : List Char) :
    parseDictRest (f + 1) ('}' :: r) = some (.nil, r) := by
  rw [parseDictRest.eq_def]; rfl

theorem parseDictRest_comma (f : Nat) (r : List Char) :
    parseDictRest (f + 1) (',' :: r)
      = match parseMember f (skipWs r) with
        | some (k, v, r2) =>
          match parseDictRest f r2 with
          | some (ms, r3) => some (.cons k v ms, r3)
          | Option.none => Option.none
        | Option.none => Option.none := by
  rw [parseDictRest.eq_def]; rfl

theorem stringMk_data (s : String) : String.mk s.data = s := rfl

theorem escChar_length_pos (c : Char) : 1 ≤ (escChar c).length := by
  rw [escChar]
  split_ifs <;> simp [uEsc]

theorem escChars_len_ge (l : List Char) : l.length ≤ (escChars l).length := by
  induction l with
  | nil => simp [escChars]
  | cons c l ih =>
    rw [escChars]
    simp only [List.length_append, List.length_cons]
    have := escChar_length_pos c
    omega

theorem renderStr_append (k : String) (y : List Char) :
    renderStr k ++ y = '"' :: (escChars k.data ++ '"' :: y) := by
  simp [renderStr]

theorem pyStrInt_head (i : Int) :
    ∃ c t, (pyStrInt i).data = c :: t ∧ (c = '-' ∨ ∃ d, d < 10 ∧ c = digitChar d) := by
  by_cases hn : i < 0
  · exact ⟨'-', _, pyStrInt_data_neg hn, Or.inl rfl⟩
  · rcases pyStrNat_head i.natAbs with ⟨c, t, he, hc⟩
    rcases mem_pyStrNat (he ▸ List.mem_cons_self c t) with ⟨d, hd, rfl⟩
    exact ⟨digitChar d, t, by rw [pyStrInt_data_nonneg hn, he], Or.inr ⟨d, hd, rfl⟩⟩

theorem digitChar_ne_of_out {d : Nat} (hd : d < 10) {c : Char}
    (hc : c.toNat < 48 ∨ 57 < c.toNat) : digitChar d ≠ c := by
  apply char_ne_of_toNat_ne
  rw [digitChar_toNat hd]
  omega

theorem isWsChar_digitChar {d : Nat} (hd : d < 10) : isWsChar (digitChar d) = false := by
  simp only [isWsChar, digitChar_toNat hd, Bool.or_eq_false_iff, decide_eq_false_iff_not]
  omega

/-- The first character of any serialized value: it identifies the value's
kind, is not whitespace, and is not a closing bracket. -/
theorem dumpVal_head {v : PyVal} {cs : List Char} (h : dumpVal v = some cs) :
    ∃ c t, cs = c :: t ∧ isWsChar c = false ∧ c ≠ ']' ∧ c ≠ '}' := by
  cases v with
  | none =>
    rw [dumpVal] at h; injection h with h; subst h
    exact ⟨'n', _, rfl, by decide, by decide, by decide⟩
  | bool b =>
    cases b <;> (rw [dumpVal] at h; injection h with h; subst h)
    · exact ⟨'f', _, rfl, by decide, by decide, by decide⟩
    · exact ⟨'t', _, rfl, by decide, by decide, by decide⟩
  | int n =>
    rw [dumpVal] at h; injection h with h; subst h
    rcases pyStrInt_head n with ⟨c, t, hct, hc⟩
    refine ⟨c, t, hct, ?_, ?_, ?_⟩
    · rcases hc with rfl | ⟨d, hd, rfl⟩
      · decide
      · exact isWsChar_digitChar hd
    · rcases hc with rfl | ⟨d, hd, rfl⟩
      · decide
      · exact digitChar_ne_of_out hd (Or.inr (by decide))
    · rcases hc with rfl | ⟨d, hd, rfl⟩
      · decide
      · exact digitChar_ne_of_out hd (Or.inr (by decide))
  | str s =>
    rw [dumpVal] at h; injection h with h; subst h
    exact ⟨'"', _, rfl, by decide, by decide, by decide⟩
  | list xs =>
    rw [dumpVal] at h
    cases hd : dumpElems xs with
    | none => rw [hd] at h; exact absurd h (by simp)
    | some inner =>
      rw [hd] at h; injection h with h; subst h
      exact ⟨'[', _, rfl, by decide, by decide, by decide⟩
  | dict kvs =>
    rw [dumpVal] at h
    cases hd : dumpMembers kvs with
    | none => rw [hd] at h; exact absurd h (by simp)
    | some inner =>
      rw [hd] at h; injection h with h; subst h
      exact ⟨'{', _, rfl, by decide, by decide, by decide⟩
  | obj id => rw [dumpVal] at h; exact absurd h (by simp)

theorem elemsRest_shape {xs : PyList} {b : List Char} (hb : dumpElemsRest xs = some b) :
    b = [] ∨ ∃ t, b = ',' :: t := by
  cases xs with
  | nil => rw [dumpElemsRest] at hb; injection hb with hb; exact Or.inl hb.symm
  | cons x xs =>
    rw [dumpElemsRest] at hb
    cases ha : dumpVal x with
    | none => rw [ha] at hb; exact absurd hb (by simp)
    | some a =>
      cases hbs : dumpElemsRest xs with
      | none => rw [ha, hbs] at hb; exact absurd hb (by simp)
      | some b2 =>
        rw [ha, hbs] at hb
        injection hb with hb
        exact Or.inr ⟨_, hb.symm⟩

theorem membersRest_shape {kvs : PyDict} {b : List Char} (hb : dumpMembersRest kvs = some b) :
    b = [] ∨ ∃ t, b = ',' :: t := by
  cases kvs with
  | nil => rw [dumpMembersRest] at hb; injection hb with hb; exact Or.inl hb.symm
  | cons k v kvs =>
    rw [dumpMembersRest] at hb
    cases ha : dumpVal v with
    | none => rw [ha] at hb; exact absurd hb (by simp)
    | some a =>
      cases hbs : dumpMembersRest kvs with
      | none => rw [ha, hbs] at hb; exact absurd hb (by simp)
      | some b2 =>
        rw [ha, hbs] at hb
        injection hb with hb
        exact Or.inr ⟨_, hb.symm⟩

theorem fuelNeeded_pos (v : PyVal) : 1 ≤ fuelNeeded v := by
  cases v <;> simp [fuelNeeded]

theorem pyDict_sizeOf_pos (kvs : PyDict) : 1 ≤ sizeOf kvs := by
  cases kvs <;> simp_arith

mutual

/-- Parsing inverts serialization: on any serialized value followed by input
that does not start with a digit, the parser returns exactly the value and
the trailing input, for any sufficient fuel. -/
theorem parseVal_dumpVal : (v : PyVal) → (cs : List Char) → dumpVal v = some cs →
    ∀ fuel rest, fuelNeeded v ≤ fuel → headDigitFree rest = true →
      parseVal fuel (cs ++ rest) = some (v, rest)
  | .none, cs, h => by
    intro fuel rest hfuel hrest
    rw [dumpVal] at h; injection h with h; subst h
    cases fuel with
    | zero => exact absurd (Nat.le_trans (fuelNeeded_pos _) hfuel) (by omega)
    | succ f => exact parseVal_null f rest
  | .bool true, cs, h => by
    intro fuel rest hfuel hrest
    rw [dumpVal] at h; injection h with h; subst h
    cases fuel with
    | zero => exact absurd (Nat.le_trans (fuelNeeded_pos _) hfuel) (by omega)
    | succ f => exact parseVal_true f rest
  | .bool false, cs, h => by
    intro fuel rest hfuel hrest
    rw [dumpVal] at h; injection h with h; subst h
    cases fuel with
    | zero => exact absurd (Nat.le_trans (fuelNeeded_pos _) hfuel) (by omega)
    | succ f => exact parseVal_false f rest
  | .int n, cs, h => by
    intro fuel rest hfuel hrest
    rw [dumpVal] at h; injection h with h; subst h
    cases fuel with
    | zero => exact absurd (Nat.le_trans (fuelNeeded_pos _) hfuel) (by omega)
    | succ f =>
      rcases pyStrInt_head n with ⟨c, t, hct, hc⟩
      rw [hct, List.cons_append, parseVal_num f _ hc]
      rw [← List.cons_append, ← hct, parseNum_pyStrInt n rest hrest]
  | .str s, cs, h => by
    intro fuel rest hfuel hrest
    rw [dumpVal] at h; injection h with h; subst h
    cases fuel with
    | zero => exact absurd (Nat.le_trans (fuelNeeded_pos _) hfuel) (by omega)
    | succ f =>
      have hin : renderStr s ++ rest = '"' :: (escChars s.data ++ '"' :: rest) :=
        renderStr_append s rest
      rw [hin, parseVal_quote f]
      have hlen : s.data.length + 1 ≤ (escChars s.data ++ '"' :: rest).length := by
        have := escChars_len_ge s.data
        simp only [List.length_append, List.length_cons]
        omega
      rw [parseStrF_escChars s.data _ rest hlen]
  | .list .nil, cs, h => by
    intro fuel rest hfuel hrest
    rw [dumpVal] at h
    rw [dumpElems] at h
    injection h with h; subst h
    cases fuel with
    | zero => exact absurd (Nat.le_trans (fuelNeeded_pos _) hfuel) (by omega)
    | succ f =>
      show parseVal (f + 1) ('[' :: ']' :: rest) = some (.list .nil, rest)
      rw [parseVal_lbracket f]
      rfl
  | .list (.cons x xs), cs, h => by
    intro fuel rest hfuel hrest
    rw [dumpVal] at h
    rw [dumpElems] at h
    cases ha : dumpVal x with
    | none => rw [ha] at h; exact absurd h (by simp)
    | some a =>
      cases hb : dumpElemsRest xs with
      | none => rw [ha, hb] at h; exact absurd h (by simp)
      | some b =>
        rw [ha, hb] at h
        injection h with h; subst h
        rw [fuelNeeded, fuelList] at hfuel
        cases fuel with
        | zero => omega
        | succ f =>
          have hin : ('[' :: (a ++ b) ++ [']']) ++ rest
              = '[' :: (a ++ (b ++ ']' :: rest)) := by simp
          rw [hin, parseVal_lbracket f]
          rcases dumpVal_head ha with ⟨c, t, hct, hws, hrb, _⟩
          rw [hct, List.cons_append, skipWs_cons_not_ws hws]
          have hfree : headDigitFree (b ++ ']' :: rest) = true := by
            rcases elemsRest_shape hb with rfl | ⟨t2, rfl⟩ <;> rfl
          split
          · rename_i heq
            injection heq with h1 _
            exact absurd h1 hrb
          · rw [← List.cons_append, ← hct,
              parseVal_dumpVal x a ha f (b ++ ']' :: rest) (by omega) hfree]
            show (match parseListRest f (b ++ ']' :: rest) with
              | some (vs, r3) => some (PyVal.list (PyList.cons x vs), r3)
              | Option.none => Option.none) = some (PyVal.list (PyList.cons x xs), rest)
            rw [parseListRest_dumpRest xs b hb f rest (by omega)]
  | .dict .nil, cs, h => by
    intro fuel rest hfuel hrest
    rw [dumpVal] at h
    rw [dumpMembers] at h
    injection h with h; subst h
    cases fuel with
    | zero => exact absurd (Nat.le_trans (fuelNeeded_pos _) hfuel) (by omega)
    | succ f =>
      show parseVal (f + 1) ('{' :: '}' :: rest) = some (.dict .nil, rest)
      rw [parseVal_lbrace f]
      rfl
  | .dict (.cons k v kvs), cs, h => by
    intro fuel rest hfuel hrest
    rw [dumpVal] at h
    rw [dumpMembers] at h
    cases ha : dumpVal v with
    | none => rw [ha] at h; exact absurd h (by simp)
    | some a =>
      cases hb : dumpMembersRest kvs with
      | none => rw [ha, hb] at h; exact absurd h (by simp)
      | some b =>
        rw [ha, hb] at h
        injection h with h; subst h
        rw [fuelNeeded, fuelDict] at hfuel
        cases fuel with
        | zero => omega
        | succ f =>
          have hin : ('{' :: (renderStr k ++ ':' :: ' ' :: a ++ b) ++ ['}']) ++ rest
              = '{' :: (renderStr k ++ ':' :: ' ' :: (a ++ (b ++ '}' :: rest))) := by simp
          rw [hin, parseVal_lbrace f]
          rw [renderStr_append k (':' :: ' ' :: (a ++ (b ++ '}' :: rest)))]
          rw [skipWs_cons_not_ws (by decide : isWsChar '"' = false)]
          have hfree : headDigitFree (b ++ '}' :: rest) = true := by
            rcases membersRest_shape hb with rfl | ⟨t2, rfl⟩ <;> rfl
          split
          · rename_i heq
            injection heq with h1 _
            exact absurd h1 (by decide)
          · rw [← renderStr_append k]
            rw [parseMember_dump k v a ha f (b ++ '}' :: rest) (by omega) hfree]
            show (match parseDictRest f (b ++ '}' :: rest) with
              | some (ms, r3) => some (PyVal.dict (PyDict.cons k v ms), r3)
              | Option.none => Option.none) = some (PyVal.dict (PyDict.cons k v kvs), rest)
            rw [parseDictRest_dumpRest kvs b hb f rest (by omega)]
termination_by v cs h => sizeOf v
decreasing_by
  all_goals try simp_wf
  all_goals try (have hpd := pyDict_sizeOf_pos kvs)
  all_goals omega

/-- Parsing the serialized tail of an array (each element preceded by `", "`,
then the closing bracket) returns the remaining elements. -/
theorem parseListRest_dumpRest : (xs : PyList) → (bs : List Char) →
    dumpElemsRest xs = some bs → ∀ fuel rest, fuelList xs + 1 ≤ fuel →
      parseListRest fuel (bs ++ ']' :: rest) = some (xs, rest)
  | .nil, bs, h => by
    intro fuel rest hfuel
    rw [dumpElemsRest] at h; injection h with h; subst h
    cases fuel with
    | zero => omega
    | succ f => exact parseListRest_rbracket f rest
  | .cons x xs, bs, h => by
    intro fuel rest hfuel
    rw [dumpElemsRest] at h
    cases ha : dumpVal x with
    | none => rw [ha] at h; exact absurd h (by simp)
    | some a =>
      cases hb : dumpElemsRest xs with
      | none => rw [ha, hb] at h; exact absurd h (by simp)
      | some b =>
        rw [ha, hb] at h
        injection h with h; subst h
        rw [fuelList] at hfuel
        cases fuel with
        | zero => omega
        | succ f =>
          have hin : ((',' :: ' ' :: a) ++ b) ++ ']' :: rest
              = ',' :: ' ' :: (a ++ (b ++ ']' :: rest)) := by simp
          rw [hin, parseListRest_comma f]
          cases f with
          | zero => omega
          | succ f2 =>
            rw [parseVal_space f2]
            have hfree : headDigitFree (b ++ ']' :: rest) = true := by
              rcases elemsRest_shape hb with rfl | ⟨t2, rfl⟩ <;> rfl
            rw [parseVal_dumpVal x a ha (f2 + 1) (b ++ ']' :: rest) (by omega) hfree]
            show (match parseListRest (f2 + 1) (b ++ ']' :: rest) with
              | some (vs, r3) => some (PyList.cons x vs, r3)
              | Option.none => Option.none) = some (PyList.cons x xs, rest)
            rw [parseListRest_dumpRest xs b hb (f2 + 1) rest (by omega)]
termination_by xs bs h => sizeOf xs
decreasing_by
  all_goals try simp_wf
  all_goals try (have hpd := pyDict_sizeOf_pos kvs)
  all_goals omega

/-- Parsing one serialized object member (`"key": value`) returns the key,
the value and the trailing input. -/
theorem parseMember_dump : (k : String) → (v : PyVal) → (a : List Char) →
    dumpVal v = some a → ∀ fuel tail, fuelNeeded v + 1 ≤ fuel →
      headDigitFree tail = true →
      parseMember fuel (renderStr k ++ ':' :: ' ' :: (a ++ tail)) = some (k, v, tail)
  | k, v, a, ha => by
    intro fuel tail hfuel htail
    cases fuel with
    | zero => omega
    | succ f =>
      rw [renderStr_append k (':' :: ' ' :: (a ++ tail))]
      rw [parseMember_quote f]
      have hlen : k.data.length + 1
          ≤ (escChars k.data ++ '"' :: (':' :: ' ' :: (a ++ tail))).length := by
        have := escChars_len_ge k.data
        simp only [List.length_append, List.length_cons]
        omega
      rw [parseStrF_escChars k.data _ (':' :: ' ' :: (a ++ tail)) hlen]
      show (match parseVal f (' ' :: (a ++ tail)) with
        | some (v2, r3) => some (String.mk k.data, v2, r3)
        | Option.none => Option.none) = some (k, v, tail)
      cases f with
      | zero => have := fuelNeeded_pos v; omega
      | succ f2 =>
        rw [parseVal_space f2]
        rw [parseVal_dumpVal v a ha (f2 + 1) tail (by omega) htail]
termination_by k v a ha => sizeOf v + 1
decreasing_by
  all_goals try simp_wf
  all_goals try (have hpd := pyDict_sizeOf_pos kvs)
  all_goals omega

/-- Parsing the serialized tail of an object returns the remaining members. -/
theorem parseDictRest_dumpRest : (kvs : PyDict) → (bs : List Char) →
    dumpMembersRest kvs = some bs → ∀ fuel rest, fuelDict kvs + 1 ≤ fuel →
      parseDictRest fuel (bs ++ '}' :: rest) = some (kvs, rest)
  | .nil, bs, h => by
    intro fuel rest hfuel
    rw [dumpMembersRest] at h; injection h with h; subst h
    cases fuel with
    | zero => omega
    | succ f => exact parseDictRest_rbrace f rest
  | .cons k v kvs, bs, h => by
    intro fuel rest hfuel
    rw [dumpMembersRest] at h
    cases ha : dumpVal v with
    | none => rw [ha] at h; exact absurd h (by simp)
    | some a =>
      cases hb : dumpMembersRest kvs with
      | none => rw [ha, hb] at h; exact absurd h (by simp)
      | some b =>
        rw [ha, hb] at h
        injection h with h; subst h
        rw [fuelDict] at hfuel
        cases fuel with
        | zero => omega
        | succ f =>
          have hin : ((',' :: ' ' :: renderStr k) ++ ((':' :: ' ' :: a) ++ b)) ++ '}' :: rest
              = ',' :: ' ' :: (renderStr k ++ ':' :: ' ' :: (a ++ (b ++ '}' :: rest))) := by
            simp
          rw [show (',' :: ' ' :: renderStr k ++ ':' :: ' ' :: a ++ b) ++ '}' :: rest
            = ((',' :: ' ' :: renderStr k) ++ ((':' :: ' ' :: a) ++ b)) ++ '}' :: rest by simp,
            hin]
          rw [parseDictRest_comma f]
          rw [skipWs_cons_ws (by decide : isWsChar ' ' = true)]
          rw [renderStr_append k (':' :: ' ' :: (a ++ (b ++ '}' :: rest)))]
          rw [skipWs_cons_not_ws (by decide : isWsChar '"' = false)]
          rw [← renderStr_append k]
          have hfree : headDigitFree (b ++ '}' :: rest) = true := by
            rcases membersRest_shape hb with rfl | ⟨t2, rfl⟩ <;> rfl
          rw [parseMember_dump k v a ha f (b ++ '}' :: rest) (by omega) hfree]
          show (match parseDictRest f (b ++ '}' :: rest) with
            | some (ms, r3) => some (PyDict.cons k v ms, r3)
            | Option.none => Option.none) = some (PyDict.cons k v kvs, rest)
          rw [parseDictRest_dumpRest kvs b hb f rest (by omega)]
termination_by kvs bs h => sizeOf kvs
decreasing_by
  all_goals try simp_wf
  all_goals try (have hpd := pyDict_sizeOf_pos kvs)
  all_goals omega

end

theorem renderStr_len (k : String) : 2 ≤ (renderStr k).length := by
  simp [renderStr]

mutual

/-- The fuel the parser needs is covered by twice the serialized length. -/
theorem fuelNeeded_le : (v : PyVal) → (cs : List Char) → dumpVal v = some cs →
    fuelNeeded v ≤ 2 * cs.length + 2
  | .none, cs, h => by
    rw [dumpVal] at h; injection h with h; subst h
    rw [fuelNeeded.eq_def]
    simp
  | .bool b, cs, h => by
    cases b <;> (rw [dumpVal] at h; injection h with h; subst h) <;>
      (rw [fuelNeeded.eq_def]; simp)
  | .int n, cs, h => by
    rw [dumpVal] at h; injection h with h; subst h
    rw [fuelNeeded.eq_def]
    simp
  | .str s, cs, h => by
    rw [dumpVal] at h; injection h with h; subst h
    rw [fuelNeeded.eq_def]
    simp
  | .list .nil, cs, h => by
    rw [dumpVal] at h
    rw [dumpElems] at h
    injection h with h; subst h
    rw [fuelNeeded, fuelList]
    simp
  | .list (.cons x xs), cs, h => by
    rw [dumpVal] at h
    rw [dumpElems] at h
    cases ha : dumpVal x with
    | none => rw [ha] at h; exact absurd h (by simp)
    | some a =>
      cases hb : dumpElemsRest xs with
      | none => rw [ha, hb] at h; exact absurd h (by simp)
      | some b =>
        rw [ha, hb] at h
        injection h with h; subst h
        rw [fuelNeeded, fuelList]
        have h1 := fuelNeeded_le x a ha
        have h2 := fuelList_le xs b hb
        simp only [List.length_cons, List.length_append]
        omega
  | .dict .nil, cs, h => by
    rw [dumpVal] at h
    rw [dumpMembers] at h
    injection h with h; subst h
    rw [fuelNeeded, fuelDict]
    simp
  | .dict (.cons k v kvs), cs, h => by
    rw [dumpVal] at h
    rw [dumpMembers] at h
    cases ha : dumpVal v with
    | none => rw [ha] at h; exact absurd h (by simp)
    | some a =>
      cases hb : dumpMembersRest kvs with
      | none => rw [ha, hb] at h; exact absurd h (by simp)
      | some b =>
        rw [ha, hb] at h
        injection h with h; subst h
        rw [fuelNeeded, fuelDict]
        have h1 := fuelNeeded_le v a ha
        have h2 := fuelDict_le kvs b hb
        have h3 := renderStr_len k
        simp only [List.length_cons, List.length_append]
        omega
  | .obj id, cs, h => by
    rw [dumpVal] at h; exact absurd h (by simp)
termination_by v cs h => sizeOf v
decreasing_by
  all_goals try simp_wf
  all_goals omega

theorem fuelList_le : (xs : PyList) → (bs : List Char) → dumpElemsRest xs = some bs →
    fuelList xs ≤ 2 * bs.length
  | .nil, bs, h => by
    rw [dumpElemsRest] at h; injection h with h; subst h
    rw [fuelList]
    simp
  | .cons x xs, bs, h => by
    rw [dumpElemsRest] at h
    cases ha : dumpVal x with
    | none => rw [ha] at h; exact absurd h (by simp)
    | some a =>
      cases hb : dumpElemsRest xs with
      | none => rw [ha, hb] at h; exact absurd h (by simp)
      | some b =>
        rw [ha, hb] at h
        injection h with h; subst h
        rw [fuelList]
        have h1 := fuelNeeded_le x a ha
        have h2 := fuelList_le xs b hb
        simp only [List.length_cons, List.length_append]
        omega
termination_by xs bs h => sizeOf xs
decreasing_by
  all_goals try simp_wf
  all_goals omega

theorem fuelDict_le : (kvs : PyDict) → (bs : List Char) → dumpMembersRest kvs = some bs →
    fuelDict kvs ≤ 2 * bs.length
  | .nil, bs, h => by
    rw [dumpMembersRest] at h; injection h with h; subst h
    rw [fuelDict]
    simp
  | .cons k v kvs, bs, h => by
    rw [dumpMembersRest] at h
    cases ha : dumpVal v with
    | none => rw [ha] at h; exact absurd h (by simp)
    | some a =>
      cases hb : dumpMembersRest kvs with
      | none => rw [ha, hb] at h; exact absurd h (by simp)
      | some b =>
        rw [ha, hb] at h
        injection h with h; subst h
        rw [fuelDict]
        have h1 := fuelNeeded_le v a ha
        have h2 := fuelDict_le kvs b hb
        have h3 := renderStr_len k
        simp only [List.length_cons, List.length_append]
        omega
termination_by kvs bs h => sizeOf kvs
decreasing_by
  all_goals try simp_wf
  all_goals omega

end

/-- The JSON codec round trip: parsing any output of serialization yields the
original value. -/
theorem jsonLoads_jsonDumps {v : PyVal} {s : String} (h : jsonDumps v = some s) :
    jsonLoads s = some v := by
  cases hd : dumpVal v with
  | none => rw [jsonDumps, hd] at h; exact absurd h (by simp)
  | some cs =>
    rw [jsonDumps, hd] at h
    injection h with h
    subst h
    rw [jsonLoads]
    have hparse := parseVal_dumpVal v cs hd (2 * cs.length + 2) [] (by
      have := fuelNeeded_le v cs hd
      omega) rfl
    rw [List.append_nil] at hparse
    show (match parseVal (2 * cs.length + 2) cs with
      | some (v, rest) =>
          match skipWs rest with
          | [] => some v
          | _ => Option.none
      | Option.none => Option.none) = some v
    rw [hparse]
    rfl

/-! ## The storage facade

`_key`, `_ser`, `_dsr` and the five public operations of `YDBStorage`,
embedded over the table model.  Effects are made explicit: each operation
takes the table contents and a health flag for its executor call (`false`
models any failure `_execute_query` can raise — pool exhaustion, timeouts,
backend faults, all caught by the operations' `except BaseException`), and
returns the new table contents, the list of queries it issued, and what the
caller observes (a value or an uncaught Python exception). -/

/-- Model of `_key`: `str(bot_id) + ":" + str(chat_id) + ":" + str(user_id)`. -/
def YDBStorage._key (self : YDBStorage) (key : StorageKey) : String :=
  pyStrInt key.bot_id ++ ":" ++ pyStrInt key.chat_id ++ ":" ++ pyStrInt key.user_id

/-- Model of `_ser`: serializes with the configured codec; `Option.none` models the
caught serialization failure (after which `_ser` returns Python `None`).
`pickle.dumps` (an external collaborator) is modelled as an injective opaque
encoding carrying the value, which succeeds on every modelled value. -/
def YDBStorage._ser (self : YDBStorage) (obj : PyVal) : Option Blob :=
  match self.serializing_method with
  | .pickle => some (Blob.pickled obj)
  | .json => (jsonDumps obj).map Blob.json

/-- Model of `_dsr`: `loads(obj) if obj else None`, with every failure caught and
returned as `None`.  Python's `None` is a value, so the result type is
`PyVal`: a falsy column, a decoding failure, a codec-mode mismatch, and a
stored JSON `null` all come back as `PyVal.none`, indistinguishable to the
caller. -/
def YDBStorage._dsr (self : YDBStorage) (obj : Option Blob) : PyVal :=
  if blobFalsy obj then .none
  else
    match self.serializing_method, obj with
    | _, Option.none => .none
    | .json, some (.json s) => (jsonLoads s).getD .none
    | .json, some (.pickled _) => .none
    | .pickle, some (.pickled v) => v
    | .pickle, some (.json _) => .none

/-- One Python-level exception kind, as the caller can observe it:
collaborator failures (backend faults from the executor, and the YDB SDK
rejecting `None` for the non-optional `Utf8` parameter `$d`), and the
facade's own `AttributeError` (calling `.update` on a non-dict). -/
inductive PyErr where
  | backendFault : PyErr
  | nullParam : PyErr
  | attributeError : PyErr
deriving DecidableEq

/-- Whether an exception comes from a collaborator (executor or SDK layer)
rather than from the facade's own code. -/
def PyErr.isCollaborator : PyErr → Bool
  | .backendFault => true
  | .nullParam => true
  | .attributeError => false

/-- The parameterized queries the storage issues. -/
inductive Query where
  | upsertState : String → String → Query
  | upsertData : String → Option Blob → Query
  | selectState : String → Query
  | selectData : String → Query

/-- Model of `_execute_query`: runs one query against the table.  `healthy = false`
models any failure of the pooled, retried execution (session-pool timeout,
operation timeout, backend fault — the code treats them all alike).  Passing
Python `None` for the `Utf8` parameter `$d` is rejected by the YDB SDK (the
column parameter is not optional), modelled as `nullParam`. -/
def execQuery (db : DB) (healthy : Bool) : Query → Except PyErr (DB × Option Record)
  | q =>
    if healthy = false then .error .backendFault
    else
      match q with
      | .upsertState k s => .ok (dbSetState db k s, Option.none)
      | .upsertData _ Option.none => .error .nullParam
      | .upsertData k (some b) => .ok (dbSetData db k b, Option.none)
      | .selectState k => .ok (db, dbLookup db k)
      | .selectData k => .ok (db, dbLookup db k)

/-- What one public operation produces: the table afterwards, the queries it
issued, and the caller-visible outcome. -/
structure OpResult (α : Type) where
  db : DB
  queries : List Query
  ret : Except PyErr α

/-- Model of `s_state if s_state else ""`: `None` (and the empty string) normalize to
the empty string. -/
def normState : Option String → String
  | Option.none => ""
  | some s => s

/-- Model of `set_state`: upserts only the `state` column; every executor failure is
caught and logged, so the caller always gets a normal return. -/
def YDBStorage.set_state (self : YDBStorage) (db : DB) (healthy : Bool)
    (key : StorageKey) (state : Option String) : OpResult Unit :=
  let s_key := self._key key
  let s_state := normState state
  match execQuery db healthy (.upsertState s_key s_state) with
  | .ok (db2, _) => ⟨db2, [.upsertState s_key s_state], .ok ()⟩
  | .error _ => ⟨db, [.upsertState s_key s_state], .ok ()⟩

/-- Model of `get_state`: selects the `state` column by derived key; returns the
column's value when a row exists, Python `None` when no row exists, and
`None` on executor failure (the `except` block falls through). -/
def YDBStorage.get_state (self : YDBStorage) (db : DB) (healthy : Bool)
    (key : StorageKey) : OpResult (Option String) :=
  let s_key := self._key key
  match execQuery db healthy (.selectState s_key) with
  | .ok (db2, row) =>
      ⟨db2, [.selectState s_key],
        .ok (match row with
          | Option.none => Option.none
          | some r => r.state)⟩
  | .error _ => ⟨db, [.selectState s_key], .ok Option.none⟩

/-- Model of `set_data`: serializes, then upserts only the `data` column.  There is no
early return on serialization failure: the query is issued with the `None`
produced by `_ser`, and the resulting executor error is caught and logged. -/
def YDBStorage.set_data (self : YDBStorage) (db : DB) (healthy : Bool)
    (key : StorageKey) (data : PyVal) : OpResult Unit :=
  let s_key := self._key key
  let s_data := self._ser data
  match execQuery db healthy (.upsertData s_key s_data) with
  | .ok (db2, _) => ⟨db2, [.upsertData s_key s_data], .ok ()⟩
  | .error _ => ⟨db, [.upsertData s_key s_data], .ok ()⟩

/-- Model of `get_data`: selects the `data` column and deserializes it; no row,
executor failure, and every `_dsr` `None` outcome all return Python `None`. -/
def YDBStorage.get_data (self : YDBStorage) (db : DB) (healthy : Bool)
    (key : StorageKey) : OpResult PyVal :=
  let s_key := self._key key
  match execQuery db healthy (.selectData s_key) with
  | .ok (db2, row) =>
      ⟨db2, [.selectData s_key],
        .ok (match row with
          | Option.none => PyVal.none
          | some r => self._dsr r.data)⟩
  | .error _ => ⟨db, [.selectData s_key], .ok PyVal.none⟩

/-- Model of `update_data`: fetches the current data, replaces a falsy result by `{}`,
merges the partial data into it with `dict.update`, writes the merged dict
back through `set_data`, and returns a copy of it.  The two executor calls
get separate health flags.  Calling `.update` on a truthy non-dict raises
`AttributeError`, which nothing in `update_data` catches. -/
def YDBStorage.update_data (self : YDBStorage) (db : DB) (healthy1 healthy2 : Bool)
    (key : StorageKey) (data : PyDict) : OpResult PyVal :=
  let g := self.get_data db healthy1 key
  match g.ret with
  | .error e => ⟨g.db, g.queries, .error e⟩
  | .ok current =>
    match (if pyTruthy current then current else .dict .nil : PyVal) with
    | .dict kvs =>
      let merged := dictUpdate kvs data
      let sres := self.set_data g.db healthy2 key (.dict merged)
      match sres.ret with
      | .error e => ⟨sres.db, g.queries ++ sres.queries, .error e⟩
      | .ok _ => ⟨sres.db, g.queries ++ sres.queries, .ok (.dict merged)⟩
    | _ => ⟨g.db, g.queries, .error .attributeError⟩

/-- The possible outcomes of the schema bootstrap against the backend. -/
inductive BootOutcome where
  | success : BootOutcome
  | tableExists : BootOutcome
  | unreachable : BootOutcome

/-- The backend's answer to the `CREATE table` scheme query: creating an
existing table and an unreachable backend both raise. -/
def schemeExec : BootOutcome → Except PyErr Unit
  | .success => .ok ()
  | .tableExists => .error .backendFault
  | .unreachable => .error .backendFault

/-- Model of `_create_table`: runs the scheme query with its own `try`/`except` that
logs and swallows every failure. -/
def _create_table (boot : BootOutcome) : Except PyErr Unit :=
  match schemeExec boot with
  | .ok _ => .ok ()
  | .error _ => .ok ()

/-- Model of `__init__`: normalizes the serialization method (anything but
`"pickle"`/`"json"` becomes `"json"`), then drives the bootstrap to
completion inside `try`/`except BaseException`, so construction always
completes. -/
def YDBStorage.init (serializing_method : String) (table_name : String)
    (boot : BootOutcome) : Except PyErr YDBStorage :=
  let m :=
    if serializing_method ≠ "pickle" ∧ serializing_method ≠ "json" then Mode.json
    else if serializing_method = "pickle" then Mode.pickle
    else Mode.json
  match _create_table boot with
  | .ok _ => .ok ⟨m, table_name⟩
  | .error _ => .ok ⟨m, table_name⟩

/-! ## Supporting lemmas about the codec and the table -/

theorem jsonDumps_ne_empty {v : PyVal} {s : String} (h : jsonDumps v = some s) : s ≠ "" := by
  cases hd : dumpVal v with
  | none => rw [jsonDumps, hd] at h; exact absurd h (by simp)
  | some cs =>
    rw [jsonDumps, hd] at h
    injection h with h
    subst h
    rcases dumpVal_head hd with ⟨c, t, rfl, _, _, _⟩
    intro he
    exact absurd (congrArg String.data he) (by simp)

/-- The codec round trip at the `_ser`/`_dsr` level, in either mode: any blob
`_ser` produces deserializes back to the original value. -/
theorem dsr_ser {self : YDBStorage} {v : PyVal} {b : Blob} (h : self._ser v = some b) :
    self._dsr (some b) = v := by
  rw [YDBStorage._ser] at h
  rw [YDBStorage._dsr.eq_def]
  cases hm : self.serializing_method with
  | pickle =>
    rw [hm] at h
    injection h with h
    subst h
    rfl
  | json =>
    rw [hm] at h
    cases hd : jsonDumps v with
    | none => rw [hd] at h; exact absurd h (by simp)
    | some s =>
      rw [hd] at h
      injection h with h
      subst h
      have hne : s ≠ "" := jsonDumps_ne_empty hd
      rw [if_neg (by simp [blobFalsy, hne])]
      simp [jsonLoads_jsonDumps hd]

/-- Lookup at a key other than the upserted one is unchanged. -/
theorem dbSetState_lookup_ne (db : DB) (k s k' : String) (h : k' ≠ k) :
    dbLookup (dbSetState db k s) k' = dbLookup db k' := by
  induction db with
  | nil =>
    simp only [dbSetState, dbLookup]
    rw [if_neg (fun hh => h hh.symm)]
  | cons kv rest ih =>
    obtain ⟨k2, r2⟩ := kv
    rw [dbSetState]
    by_cases h2 : k2 = k
    · rw [if_pos h2]
      subst h2
      simp only [dbLookup]
      rw [if_neg (fun hh => h hh.symm), if_neg (fun hh => h hh.symm)]
    · rw [if_neg h2]
      simp only [dbLookup]
      by_cases hk : k2 = k'
      · rw [if_pos hk, if_pos hk]
      · rw [if_neg hk, if_neg hk]
        exact ih

theorem dbSetData_lookup_ne (db : DB) (k : String) (b : Blob) (k' : String) (h : k' ≠ k) :
    dbLookup (dbSetData db k b) k' = dbLookup db k' := by
  induction db with
  | nil =>
    simp only [dbSetData, dbLookup]
    rw [if_neg (fun hh => h hh.symm)]
  | cons kv rest ih =>
    obtain ⟨k2, r2⟩ := kv
    rw [dbSetData]
    by_cases h2 : k2 = k
    · rw [if_pos h2]
      subst h2
      simp only [dbLookup]
      rw [if_neg (fun hh => h hh.symm), if_neg (fun hh => h hh.symm)]
    · rw [if_neg h2]
      simp only [dbLookup]
      by_cases hk : k2 = k'
      · rw [if_pos hk, if_pos hk]
      · rw [if_neg hk, if_neg hk]
        exact ih

/-- Looking up the touched key after a state upsert: the row exists and its
state column holds the written value. -/
theorem dbSetState_lookup_self (db : DB) (k s : String) :
    ∃ r, dbLookup (dbSetState db k s) k = some r ∧ r.state = some s := by
  induction db with
  | nil =>
    refine ⟨{ state := some s, data := Option.none }, ?_, rfl⟩
    simp [dbSetState, dbLookup]
  | cons kv rest ih =>
    obtain ⟨k2, r2⟩ := kv
    rw [dbSetState]
    by_cases h2 : k2 = k
    · refine ⟨{ r2 with state := some s }, ?_, rfl⟩
      rw [if_pos h2]
      simp only [dbLookup]
      rw [if_pos h2]
    · obtain ⟨r, hr, hs⟩ := ih
      refine ⟨r, ?_, hs⟩
      rw [if_neg h2]
      simp only [dbLookup]
      rw [if_neg h2]
      exact hr

/-- Looking up the touched key after a data upsert: the row exists and its
data column holds the written blob. -/
theorem dbSetData_lookup_self (db : DB) (k : String) (b : Blob) :
    ∃ r, dbLookup (dbSetData db k b) k = some r ∧ r.data = some b := by
  induction db with
  | nil =>
    refine ⟨{ state := Option.none, data := some b }, ?_, rfl⟩
    simp [dbSetData, dbLookup]
  | cons kv rest ih =>
    obtain ⟨k2, r2⟩ := kv
    rw [dbSetData]
    by_cases h2 : k2 = k
    · refine ⟨{ r2 with data := some b }, ?_, rfl⟩
      rw [if_pos h2]
      simp only [dbLookup]
      rw [if_pos h2]
    · obtain ⟨r, hr, hs⟩ := ih
      refine ⟨r, ?_, hs⟩
      rw [if_neg h2]
      simp only [dbLookup]
      rw [if_neg h2]
      exact hr

/-- The data column of every row, as an observation (NULL for a missing
row). -/
def dataCol (db : DB) (k : String) : Option Blob :=
  (dbLookup db k).bind Record.data

/-- The state column of every row, as an observation (NULL for a missing
row). -/
def stateCol (db : DB) (k : String) : Option String :=
  (dbLookup db k).bind Record.state

theorem dbSetState_data_self (db : DB) (k s : String) :
    (dbLookup (dbSetState db k s) k).bind Record.data
      = (dbLookup db k).bind Record.data := by
  induction db with
  | nil =>
    simp [dbSetState, dbLookup]
  | cons kv rest ih =>
    obtain ⟨k2, r2⟩ := kv
    rw [dbSetState]
    by_cases h2 : k2 = k
    · rw [if_pos h2]
      simp only [dbLookup]
      rw [if_pos h2, if_pos h2]
      rfl
    · rw [if_neg h2]
      simp only [dbLookup]
      rw [if_neg h2, if_neg h2]
      exact ih

theorem dbSetData_state_self (db : DB) (k : String) (b : Blob) :
    (dbLookup (dbSetData db k b) k).bind Record.state
      = (dbLookup db k).bind Record.state := by
  induction db with
  | nil =>
    simp [dbSetData, dbLookup]
  | cons kv rest ih =>
    obtain ⟨k2, r2⟩ := kv
    rw [dbSetData]
    by_cases h2 : k2 = k
    · rw [if_pos h2]
      simp only [dbLookup]
      rw [if_pos h2, if_pos h2]
      rfl
    · rw [if_neg h2]
      simp only [dbLookup]
      rw [if_neg h2, if_neg h2]
      exact ih

theorem dbSetState_dataCol (db : DB) (k s k' : String) :
    dataCol (dbSetState db k s) k' = dataCol db k' := by
  by_cases h : k' = k
  · subst h
    exact dbSetState_data_self db k' s
  · rw [dataCol, dataCol, dbSetState_lookup_ne db k s k' h]

theorem dbSetData_stateCol (db : DB) (k : String) (b : Blob) (k' : String) :
    stateCol (dbSetData db k b) k' = stateCol db k' := by
  by_cases h : k' = k
  · subst h
    exact dbSetData_state_self db k' b
  · rw [stateCol, stateCol, dbSetData_lookup_ne db k b k' h]

/-! ## Unfolding lemmas for the operations -/

theorem set_state_true (self : YDBStorage) (db : DB) (key : StorageKey) (st : Option String) :
    self.set_state db true key st
      = ⟨dbSetState db (self._key key) (normState st),
          [.upsertState (self._key key) (normState st)], .ok ()⟩ := rfl

theorem set_state_false (self : YDBStorage) (db : DB) (key : StorageKey) (st : Option String) :
    self.set_state db false key st
      = ⟨db, [.upsertState (self._key key) (normState st)], .ok ()⟩ := rfl

theorem get_state_true (self : YDBStorage) (db : DB) (key : StorageKey) :
    self.get_state db true key
      = ⟨db, [.selectState (self._key key)],
          .ok (match dbLookup db (self._key key) with
            | Option.none => Option.none
            | some r => r.state)⟩ := rfl

theorem get_state_false (self : YDBStorage) (db : DB) (key : StorageKey) :
    self.get_state db false key
      = ⟨db, [.selectState (self._key key)], .ok Option.none⟩ := rfl

theorem get_data_true (self : YDBStorage) (db : DB) (key : StorageKey) :
    self.get_data db true key
      = ⟨db, [.selectData (self._key key)],
          .ok (match dbLookup db (self._key key) with
            | Option.none => PyVal.none
            | some r => self._dsr r.data)⟩ := rfl

theorem get_data_false (self : YDBStorage) (db : DB) (key : StorageKey) :
    self.get_data db false key
      = ⟨db, [.selectData (self._key key)], .ok PyVal.none⟩ := rfl

theorem set_data_false (self : YDBStorage) (db : DB) (key : StorageKey) (v : PyVal) :
    self.set_data db false key v
      = ⟨db, [.upsertData (self._key key) (self._ser v)], .ok ()⟩ := rfl

theorem set_data_ser_some {self : YDBStorage} {v : PyVal} {b : Blob}
    (db : DB) (key : StorageKey) (h : self._ser v = some b) :
    self.set_data db true key v
      = ⟨dbSetData db (self._key key) b, [.upsertData (self._key key) (some b)], .ok ()⟩ := by
  rw [YDBStorage.set_data]
  rw [h]
  rfl

theorem set_data_ser_none {self : YDBStorage} {v : PyVal}
    (db : DB) (healthy : Bool) (key : StorageKey) (h : self._ser v = Option.none) :
    self.set_data db healthy key v
      = ⟨db, [.upsertData (self._key key) Option.none], .ok ()⟩ := by
  cases healthy <;> (rw [YDBStorage.set_data]; rw [h]; rfl)

theorem str_data_append (s t : String) : (s ++ t).data = s.data ++ t.data := rfl

/-- Concrete store and key used by the claim witnesses below. -/
def store0 : YDBStorage := { serializing_method := Mode.json, table_name := "fsm_storage" }

/-- A concrete picklemode store, for mode coverage in witnesses. -/
def storeP : YDBStorage := { serializing_method := Mode.pickle, table_name := "fsm_storage" }

/-- A concrete storage key (bot 1, chat 2, user 3): `_key` gives `"1:2:3"`. -/
def key0 : StorageKey := { bot_id := 1, chat_id := 2, user_id := 3 }

/-- C3: the key deriver is deterministic (it is a pure function of the
triple, producing `str(bot_id) + ":" + str(chat_id) + ":" + str(user_id)`),
and distinct identifier triples give distinct keys: decimal renderings
contain no `':'`, so the two separators split the key unambiguously, and
decimal rendering of integers is injective. -/
theorem C3_key_deterministic_injective (self : YDBStorage) (k1 k2 : StorageKey) :
    self._key k1 = self._key k2 → k1 = k2 := by
  intro h
  have hd := congrArg String.data h
  rw [YDBStorage._key, YDBStorage._key] at hd
  simp only [str_data_append] at hd
  simp only [List.append_assoc, List.cons_append, List.nil_append] at hd
  have h1 := splitColon (fun c hcm => pyStrInt_ne_colon hcm)
    (fun c hcm => pyStrInt_ne_colon hcm) hd
  have h2 := splitColon (fun c hcm => pyStrInt_ne_colon hcm)
    (fun c hcm => pyStrInt_ne_colon hcm) h1.2
  obtain ⟨hb, hcu⟩ := h1
  obtain ⟨hch, hu⟩ := h2
  obtain ⟨b1, c1, u1⟩ := k1
  obtain ⟨b2, c2, u2⟩ := k2
  have e1 := pyStrInt_inj hb
  have e2 := pyStrInt_inj hch
  have e3 := pyStrInt_inj hu
  simp only at e1 e2 e3
  rw [e1, e2, e3]

/-- Witness for C3 at a concrete instance. -/
theorem C3_witness :
    store0._key { bot_id := 7, chat_id := -42, user_id := 360 }
        = store0._key { bot_id := 7, chat_id := -42, user_id := 360 } ∧
      ({ bot_id := 7, chat_id := -42, user_id := 360 } : StorageKey)
        = { bot_id := 7, chat_id := -42, user_id := 360 } :=
  ⟨rfl, C3_key_deterministic_injective store0 _ _ rfl⟩

/-- C4: the JSON (text-mode) codec round trip: whenever serialization of a
value succeeds, deserializing the produced blob yields the value back. -/
theorem C4_json_roundtrip (self : YDBStorage) (v : PyVal) (b : Blob)
    (hmode : self.serializing_method = Mode.json)
    (h : self._ser v = some b) : self._dsr (some b) = v :=
  dsr_ser h

/-- Witness for C4: a concrete mapping with nested values serializes to the
expected JSON text and deserializes back to itself. -/
theorem C4_witness :
    store0._ser (.dict (.cons "a" (.list (.cons (.int 1) (.cons (.str "x") (.cons .none .nil))))
        (.cons "b" (.bool true) .nil)))
      = some (.json "\x7b\"a\": [1, \"x\", null], \"b\": true\x7d") ∧
    store0._dsr (some (.json "\x7b\"a\": [1, \"x\", null], \"b\": true\x7d"))
      = .dict (.cons "a" (.list (.cons (.int 1) (.cons (.str "x") (.cons .none .nil))))
          (.cons "b" (.bool true) .nil)) :=
  ⟨rfl, C4_json_roundtrip store0 _ _ rfl rfl⟩

/-- C1 (amended): when serialization fails, `set_data` does not abandon the
operation before querying — it issues the upsert with the `None` that `_ser`
returned as the `$d` parameter.  That executor call fails (the parameter is
not optional), the failure is caught and logged, so the stored record is
unchanged and the caller sees a normal return. -/
theorem C1_set_data_on_serialization_failure (self : YDBStorage) (db : DB) (healthy : Bool)
    (key : StorageKey) (v : PyVal) (hser : self._ser v = Option.none) :
    self.set_data db healthy key v
      = ⟨db, [.upsertData (self._key key) Option.none], .ok ()⟩ :=
  set_data_ser_none db healthy key hser

/-- Witness for C1's amended statement at a concrete input. -/
theorem C1_witness :
    store0._ser (.obj 0) = Option.none ∧
    store0.set_data [] true key0 (.obj 0)
      = ⟨[], [.upsertData "1:2:3" Option.none], .ok ()⟩ :=
  ⟨rfl, C1_set_data_on_serialization_failure store0 [] true key0 (.obj 0) rfl⟩

/-- Counterexample to C1 as stated: serialization of this value fails under
the active (json) codec mode, yet `set_data` issues one query — the upsert
with a `None` data parameter — rather than abandoning before any query.  The
record is indeed left unchanged, but not because no query was issued. -/
theorem C1_counterexample :
    store0._ser (.obj 0) = Option.none ∧
    (store0.set_data [] true key0 (.obj 0)).queries.length = 1 ∧
    (store0.set_data [] true key0 (.obj 0)).queries
      = [Query.upsertData "1:2:3" Option.none] ∧
    (store0.set_data [] true key0 (.obj 0)).db = [] ∧
    (store0.set_data [] true key0 (.obj 0)).ret = .ok () :=
  ⟨rfl, rfl, rfl, rfl, rfl⟩

/-- C8: construction always completes — the bootstrap runs under two layers
of `try`/`except` (inside `_create_table` and around `asyncio.run` in the
constructor), so a table that already exists or an unreachable backend never
propagates out of `__init__`. -/
theorem C8_construction_always_succeeds (sm tn : String) (boot : BootOutcome) :
    (YDBStorage.init sm tn boot).isOk = true := by
  cases boot <;> rfl

/-- C2 (amended): `get_state` returns `None` only when no row exists for the
derived key (or the state column is NULL, or the executor fails); when the
state column holds the empty string — which is exactly what
`set_state(key, None)` stores, since `None` is normalized to `""` —
`get_state` returns the empty string, not `None`. -/
theorem C2_get_state_empty_string (self : YDBStorage) (db : DB) (key : StorageKey) :
    (self.get_state (self.set_state db true key Option.none).db true key).ret
        = .ok (some "") ∧
    (dbLookup db (self._key key) = Option.none →
      (self.get_state db true key).ret = .ok Option.none) ∧
    (∀ r, dbLookup db (self._key key) = some r → r.state = Option.none →
      (self.get_state db true key).ret = .ok Option.none) := by
  refine ⟨?_, ?_, ?_⟩
  · rw [set_state_true]
    rw [get_state_true]
    obtain ⟨r, hr, hs⟩ := dbSetState_lookup_self db (self._key key) (normState Option.none)
    simp only [hr, hs]
    rfl
  · intro h
    rw [get_state_true]
    simp only [h]
  · intro r h hs
    rw [get_state_true]
    simp only [h, hs]

/-- Witness for C2's amended statement: the empty-string read after
`set_state(key, None)`, the missing-row `None`, and the NULL-column `None`,
each at a concrete instance. -/
theorem C2_witness :
    (store0.get_state (store0.set_state [] true key0 Option.none).db true key0).ret
        = .ok (some "") ∧
    (store0.get_state [] true key0).ret = .ok Option.none ∧
    (store0.get_state [("1:2:3", { state := Option.none, data := Option.none })]
        true key0).ret = .ok Option.none :=
  ⟨(C2_get_state_empty_string store0 [] key0).1,
   (C2_get_state_empty_string store0 [] key0).2.1 rfl,
   (C2_get_state_empty_string store0
      [("1:2:3", { state := Option.none, data := Option.none })] key0).2.2 _ rfl rfl⟩

/-- Counterexample to C2 as stated: after `set_state(key, None)` on an empty
table, `get_state` returns the empty string, which is not `None`. -/
theorem C2_counterexample :
    (store0.get_state (store0.set_state [] true key0 Option.none).db true key0).ret
        = .ok (some "") ∧
    (Except.ok (some "") : Except PyErr (Option String)) ≠ .ok Option.none :=
  ⟨rfl, by intro h; injection h with h2; exact Option.noConfusion h2⟩

/-- C7: the writes are column-disjoint — `set_state` upserts only the
`state` column and `set_data` only the `data` column, so after any
`set_state` every row's data column is observably unchanged, and after any
`set_data` every row's state column is observably unchanged (a fresh row
gets NULL in the untouched column). -/
theorem C7_writes_touch_only_own_column (self : YDBStorage) (db : DB) (healthy : Bool)
    (key : StorageKey) (st : Option String) (v : PyVal) (k' : String) :
    dataCol (self.set_state db healthy key st).db k' = dataCol db k' ∧
    stateCol (self.set_data db healthy key v).db k' = stateCol db k' := by
  constructor
  · cases healthy with
    | false => rw [set_state_false]
    | true =>
      rw [set_state_true]
      exact dbSetState_dataCol db (self._key key) (normState st) k'
  · cases healthy with
    | false => rw [set_data_false]
    | true =>
      cases hser : self._ser v with
      | none => rw [set_data_ser_none db true key hser]
      | some b =>
        rw [set_data_ser_some db key hser]
        exact dbSetData_stateCol db (self._key key) b k'

theorem set_data_ret (self : YDBStorage) (db : DB) (healthy : Bool) (key : StorageKey)
    (v : PyVal) : (self.set_data db healthy key v).ret = .ok () := by
  cases healthy with
  | false => rfl
  | true =>
    cases hser : self._ser v with
    | none => rw [set_data_ser_none db true key hser]
    | some b => rw [set_data_ser_some db key hser]

theorem get_data_ret_ok (self : YDBStorage) (db : DB) (healthy : Bool) (key : StorageKey) :
    ∃ cur, (self.get_data db healthy key).ret = .ok cur := by
  cases healthy with
  | false => exact ⟨PyVal.none, rfl⟩
  | true => exact ⟨_, rfl⟩

theorem get_data_db (self : YDBStorage) (db : DB) (healthy : Bool) (key : StorageKey) :
    (self.get_data db healthy key).db = db := by
  cases healthy <;> rfl

/-- C5: `update_data` merges the partial data over the current data (current
values are overridden by the partial's on key conflicts, new keys are
appended), treating "no data" as the empty mapping; it returns the merged
mapping and, when the merged mapping serializes and the executor is healthy,
persists it so that a subsequent `get_data` reads it back. -/
theorem C5_update_data_merges (self : YDBStorage) (db : DB) (key : StorageKey)
    (data : PyDict) (m : PyDict) (b : Blob)
    (hcur : (self.get_data db true key).ret = .ok (.dict m) ∨
      ((self.get_data db true key).ret = .ok .none ∧ m = .nil))
    (hser : self._ser (.dict (dictUpdate m data)) = some b) :
    (self.update_data db true true key data).ret = .ok (.dict (dictUpdate m data)) ∧
    (self.get_data (self.update_data db true true key data).db true key).ret
      = .ok (.dict (dictUpdate m data)) := by
  have hupd : self.update_data db true true key data
      = ⟨dbSetData db (self._key key) b,
         [.selectData (self._key key), .upsertData (self._key key) (some b)],
         .ok (.dict (dictUpdate m data))⟩ := by
    rcases hcur with hg | ⟨hg, hm⟩
    · rw [get_data_true] at hg
      injection hg with hg
      simp only [YDBStorage.update_data, get_data_true]
      cases m with
      | nil => simp [hg, pyTruthy, set_data_ser_some db key hser]
      | cons k1 v1 rest => simp [hg, pyTruthy, set_data_ser_some db key hser]
    · subst hm
      rw [get_data_true] at hg
      injection hg with hg
      simp only [YDBStorage.update_data, get_data_true]
      simp [hg, pyTruthy, set_data_ser_some db key hser]
  refine ⟨by rw [hupd], ?_⟩
  rw [hupd]
  rw [get_data_true]
  obtain ⟨r, hr, hd⟩ := dbSetData_lookup_self db (self._key key) b
  simp only [hr, hd]
  rw [dsr_ser hser]

/-- Witness for C5 at the claim's own example: current data `{"a": 1}`,
partial `{"b": 2}`, result `{"a": 1, "b": 2}`, returned and persisted. -/
theorem C5_witness :
    ((store0.update_data (store0.set_data [] true key0
          (.dict (.cons "a" (.int 1) .nil))).db true true key0
        (.cons "b" (.int 2) .nil)).ret
      = .ok (.dict (.cons "a" (.int 1) (.cons "b" (.int 2) .nil)))) ∧
    ((store0.get_data (store0.update_data (store0.set_data [] true key0
          (.dict (.cons "a" (.int 1) .nil))).db true true key0
        (.cons "b" (.int 2) .nil)).db true key0).ret
      = .ok (.dict (.cons "a" (.int 1) (.cons "b" (.int 2) .nil)))) :=
  C5_update_data_merges store0 _ key0 (.cons "b" (.int 2) .nil)
    (.cons "a" (.int 1) .nil) (.json "\x7b\"a\": 1, \"b\": 2\x7d")
    (Or.inl rfl) rfl

/-- C6 (amended): `get_data` returns Python `None` in exactly these
situations, all observably identical to the caller: the executor call fails,
no row exists, the data column is falsy (NULL or empty), or `_dsr` returns
`None` on a truthy blob — which covers both a deserialization failure and a
stored blob that deserializes to `None` itself (for example the JSON text
`"null"`). -/
theorem C6_get_data_null_cases (self : YDBStorage) (db : DB) (healthy : Bool)
    (key : StorageKey) :
    (self.get_data db healthy key).ret = .ok .none ↔
      (healthy = false ∨ dbLookup db (self._key key) = Option.none ∨
        (∃ r, dbLookup db (self._key key) = some r ∧ blobFalsy r.data = true) ∨
        (∃ r, dbLookup db (self._key key) = some r ∧ blobFalsy r.data = false ∧
          self._dsr r.data = .none)) := by
  cases healthy with
  | false =>
    rw [get_data_false]
    simp
  | true =>
    rw [get_data_true]
    cases hl : dbLookup db (self._key key) with
    | none => simp [hl]
    | some r =>
      simp only [hl]
      constructor
      · intro h
        injection h with h
        by_cases hf : blobFalsy r.data = true
        · exact Or.inr (Or.inr (Or.inl ⟨r, rfl, hf⟩))
        · exact Or.inr (Or.inr (Or.inr ⟨r, rfl, by simpa using hf, h⟩))
      · intro h
        rcases h with h | h | ⟨r2, hr2, hf⟩ | ⟨r2, hr2, hnf, hd⟩
        · exact absurd h (by simp)
        · exact absurd h (by simp)
        · injection hr2 with hr2
          subst hr2
          have : self._dsr r.data = .none := by
            rw [YDBStorage._dsr.eq_def, if_pos hf]
          rw [this]
        · injection hr2 with hr2
          subst hr2
          rw [hd]

/-- Witness for C6's amended statement: with a healthy executor and a row
whose data column holds the JSON text `"null"` (exactly what
`set_data(key, None)` stores), `get_data` returns `None` through the last
case of the amended enumeration. -/
theorem C6_witness :
    ((store0.get_data (store0.set_data [] true key0 .none).db true key0).ret
        = .ok .none) ∧
    ((true : Bool) = false ∨
      dbLookup (store0.set_data [] true key0 .none).db "1:2:3" = Option.none ∨
      (∃ r, dbLookup (store0.set_data [] true key0 .none).db "1:2:3" = some r ∧
        blobFalsy r.data = true) ∨
      (∃ r, dbLookup (store0.set_data [] true key0 .none).db "1:2:3" = some r ∧
        blobFalsy r.data = false ∧ store0._dsr r.data = .none)) :=
  ⟨rfl,
   (C6_get_data_null_cases store0 (store0.set_data [] true key0 .none).db true key0).mp rfl⟩

/-- Counterexample to C6 as stated: after `set_data(key, None)` the row
exists, its data column holds the non-empty JSON text `"null"`, the executor
call succeeds, and deserialization succeeds (producing `None`) — yet
`get_data` returns `None`.  So the claim's four cases are not exhaustive. -/
theorem C6_counterexample :
    (store0.get_data (store0.set_data [] true key0 .none).db true key0).ret
        = .ok .none ∧
    dbLookup (store0.set_data [] true key0 .none).db "1:2:3"
        = some { state := Option.none, data := some (.json "null") } ∧
    blobFalsy (some (.json "null")) = false ∧
    jsonLoads "null" = some .none :=
  ⟨rfl, rfl, rfl, rfl⟩

/-- Which caller-visible outcomes count as an uncaught collaborator failure. -/
def retCollab {α : Type} : Except PyErr α → Bool
  | .error e => e.isCollaborator
  | .ok _ => false

/-- C9: the facade is defensive — no public operation lets a collaborator
failure (executor or codec) reach the caller: the four single-query
operations always return normally whatever the executor does, `update_data`
never surfaces a collaborator failure, and on executor failure the writes
are no-ops and the reads return `None`. -/
theorem C9_defensive_facade (self : YDBStorage) (db : DB) (key : StorageKey)
    (st : Option String) (v : PyVal) (data : PyDict) (h h1 h2 : Bool) :
    (self.set_state db h key st).ret = .ok () ∧
    (self.set_data db h key v).ret = .ok () ∧
    (self.get_state db h key).ret.isOk = true ∧
    (self.get_data db h key).ret.isOk = true ∧
    retCollab (self.update_data db h1 h2 key data).ret = false ∧
    (self.set_state db false key st).db = db ∧
    (self.set_data db false key v).db = db ∧
    (self.get_state db false key).ret = .ok Option.none ∧
    (self.get_data db false key).ret = .ok PyVal.none := by
  refine ⟨?_, set_data_ret self db h key v, ?_, ?_, ?_, rfl, rfl, rfl, rfl⟩
  · cases h <;> rfl
  · cases h <;> rfl
  · cases h <;> rfl
  · obtain ⟨cur, hcur⟩ := get_data_ret_ok self db h1 key
    rw [YDBStorage.update_data]
    simp only [hcur]
    cases hcc : (if pyTruthy cur = true then cur else PyVal.dict PyDict.nil) with
    | dict kvs => simp [set_data_ret, retCollab]
    | none => simp [retCollab, PyErr.isCollaborator]
    | bool b => simp [retCollab, PyErr.isCollaborator]
    | int n => simp [retCollab, PyErr.isCollaborator]
    | str s => simp [retCollab, PyErr.isCollaborator]
    | list xs => simp [retCollab, PyErr.isCollaborator]
    | obj o => simp [retCollab, PyErr.isCollaborator]

/-- C10: `update_data` returns the merged mapping even when the `set_data`
write fails — the write failure is swallowed inside `set_data`, the table is
unchanged, and the returned value gives the caller no indication that the
merged data was not persisted. -/
theorem C10_update_data_swallows_write_failure (self : YDBStorage) (db : DB)
    (key : StorageKey) (data : PyDict) (m : PyDict) (h1 : Bool)
    (hcur : (self.get_data db h1 key).ret = .ok (.dict m) ∨
      ((self.get_data db h1 key).ret = .ok .none ∧ m = .nil)) :
    (self.update_data db h1 false key data).ret = .ok (.dict (dictUpdate m data)) ∧
    (self.update_data db h1 false key data).db = db := by
  have hupd : self.update_data db h1 false key data
      = ⟨db, (self.get_data db h1 key).queries
          ++ [.upsertData (self._key key) (self._ser (.dict (dictUpdate m data)))],
         .ok (.dict (dictUpdate m data))⟩ := by
    rcases hcur with hg | ⟨hg, hm⟩
    · rw [YDBStorage.update_data]
      cases m with
      | nil => simp [hg, pyTruthy, get_data_db, set_data_false]
      | cons k1 v1 rest => simp [hg, pyTruthy, get_data_db, set_data_false]
    · subst hm
      rw [YDBStorage.update_data]
      simp [hg, pyTruthy, get_data_db, set_data_false]
  exact ⟨by rw [hupd], by rw [hupd]⟩

/-- Witness for C10: current data `{"a": 1}`, partial `{"b": 2}`, failing
write: the merged mapping is still returned and the table is unchanged. -/
theorem C10_witness :
    ((store0.update_data (store0.set_data [] true key0
          (.dict (.cons "a" (.int 1) .nil))).db true false key0
        (.cons "b" (.int 2) .nil)).ret
      = .ok (.dict (.cons "a" (.int 1) (.cons "b" (.int 2) .nil)))) ∧
    ((store0.update_data (store0.set_data [] true key0
          (.dict (.cons "a" (.int 1) .nil))).db true false key0
        (.cons "b" (.int 2) .nil)).db
      = (store0.set_data [] true key0 (.dict (.cons "a" (.int 1) .nil))).db) :=
  C10_update_data_swallows_write_failure store0 _ key0 (.cons "b" (.int 2) .nil)
    (.cons "a" (.int 1) .nil) true (Or.inl rfl)
